import Mathlib

/-!
Verification of the local package index (Rust sources under src/).

Strings are modelled as lists of characters (`Str`), machine integers as
`Int`/`Nat`, and `f32` vector entries as rationals.  Each section embeds one
part of the source:

* `Npm`      — src/manifests/npm.rs (manifest version cleaning),
* `GoReg`    — src/registry/go.rs (Go proxy escaping and prefix stripping),
* `Index`    — src/local/models.rs, src/local/db.rs, src/local/indexer.rs,
               src/commands/retry.rs, src/commands/prune.rs (status machine,
               metadata store, blob store, removal and indexing flows),
* `Vect`     — src/local/vector.rs (multi-namespace search, table-name
               sanitization),
* `Chunk`    — src/indexer/chunk.rs (embedding text and UTF-8 truncation).
-/

/-- A Rust string modelled as its list of characters. -/
abbrev Str := List Char

namespace Npm

/-- ASCII whitespace recognised by the model of `str::trim`. -/
def isWsp (c : Char) : Bool :=
  c == ' ' || c == '\t' || c == '\n' || c == '\r'

/-- Model of Rust `str::trim`: drop whitespace from both ends. -/
def trimStr (s : Str) : Str :=
  ((s.dropWhile isWsp).reverse.dropWhile isWsp).reverse

/-- Model of Rust `str::trim_start_matches` for a character pattern: strip
every leading occurrence of the character. -/
def trimStartMatches (c : Char) : Str → Str
  | [] => []
  | x :: xs => if x == c then trimStartMatches c xs else x :: xs

/-- Model of Rust `str::starts_with` for a string pattern. -/
def startsWithStr (pat s : Str) : Bool :=
  decide (pat <+: s)

/-- Model of Rust `str::contains` for a string pattern: some suffix of `s`
starts with `pat`. -/
def containsSub (pat s : Str) : Bool :=
  s.tails.any fun t => decide (pat <+: t)

/-- `clean_version` from src/manifests/npm.rs: trim, strip leading markers in
the order the source applies them, then reject ranges, urls and git refs. -/
def cleanVersion (version : Str) : Option Str :=
  let v := trimStartMatches 'v' (trimStartMatches '='
    (trimStartMatches '~' (trimStartMatches '^' (trimStr version))))
  if v.contains ' ' || containsSub ['|', '|'] v
      || containsSub ['h', 't', 't', 'p'] v
      || containsSub ['g', 'i', 't'] v
      || containsSub ['f', 'i', 'l', 'e', ':'] v
      || v.head? == some '>' || v.head? == some '<' || v.head? == some '*' then
    none
  else
    some v

/-- The filter `parse_package_json` applies to a manifest version spec: skip
git, file, url and github references. -/
def skipSpec (version : Str) : Bool :=
  startsWithStr ['g', 'i', 't'] version
    || startsWithStr ['f', 'i', 'l', 'e', ':'] version
    || startsWithStr ['h', 't', 't', 'p'] version
    || containsSub ['g', 'i', 't', 'h', 'u', 'b', ':'] version

/-- A direct dependency as emitted by the manifest resolvers. -/
structure Dependency where
  registry : Str
  name : Str
  version : Str
deriving DecidableEq

/-- The canonical registry string of the npm resolver. -/
def npmRegistryStr : Str := ['n', 'p', 'm']

/-- `parse_npm_deps` from src/manifests/npm.rs over already-decoded manifest
data: `direct` is the (name, version-spec) map read from package.json, `lock`
the top-level pin map built from package-lock.json.  Entries whose spec the
`parse_package_json` filter skips are dropped; the rest resolve to the
lockfile pin when present, else to the cleaned manifest spec. -/
def parseNpmDeps (direct : List (Str × Str)) (lock : Str → Option Str) :
    List Dependency :=
  (direct.filter fun p => !skipSpec p.2).filterMap fun p =>
    match lock p.1 with
    | some v => some ⟨npmRegistryStr, p.1, v⟩
    | none => (cleanVersion p.2).map fun v => ⟨npmRegistryStr, p.1, v⟩

end Npm

namespace GoReg

/-- Rust `char::is_ascii_uppercase`. -/
def isAsciiUp (c : Char) : Bool :=
  decide ('A' ≤ c) && decide (c ≤ 'Z')

/-- Rust `char::to_ascii_lowercase`. -/
def toAsciiLow (c : Char) : Char :=
  if isAsciiUp c then Char.ofNat (c.toNat + 32) else c

/-- `escape_module` from src/registry/go.rs: the accumulating loop that
rewrites every ASCII-uppercase character as `!` plus its lowercase form. -/
def escapeModule (m : Str) : Str :=
  m.foldl (fun acc c =>
    if isAsciiUp c then acc ++ ['!', toAsciiLow c] else acc ++ [c]) []

/-- Per-character escape rule equivalent to the loop body of
`escape_module`. -/
def escRule (c : Char) : Str :=
  if isAsciiUp c then ['!', toAsciiLow c] else [c]

/-- `normalize_version` from src/registry/go.rs: ensure a leading `v`. -/
def normalizeVersion (v : Str) : Str :=
  if v.head? == some 'v' then v else 'v' :: v

/-- `strip_module_prefix` from src/registry/go.rs: find the first `@`, then
the first `/` after it, and keep what follows. -/
def stripModulePrefix (p : Str) : Str :=
  match p.findIdx? (fun c => c == '@') with
  | some atPos =>
    match (p.drop atPos).findIdx? (fun c => c == '/') with
    | some slashPos => p.drop (atPos + slashPos + 1)
    | none => p
  | none => p

theorem escapeModule_go (m : Str) (acc : Str) :
    m.foldl (fun acc c =>
      if isAsciiUp c then acc ++ ['!', toAsciiLow c] else acc ++ [c]) acc
      = acc ++ m.flatMap escRule := by
  induction m generalizing acc with
  | nil => simp
  | cons c t ih =>
    simp only [List.foldl_cons, List.flatMap_cons, escRule]
    by_cases h : isAsciiUp c = true
    · simp [h, ih, List.append_assoc]
    · simp only [Bool.not_eq_true] at h
      simp [h, ih, List.append_assoc]

end GoReg

/-- C3 counterexample: the manifest spec `1.*` survives `clean_version` with
its residue containing `*`, and is emitted by the npm resolver without a
lockfile pin, so a cleaned version string can contain `*`. -/
theorem C3_counterexample :
    Npm.parseNpmDeps [(['a'], ['1', '.', '*'])] (fun _ => none)
        = [⟨Npm.npmRegistryStr, ['a'], ['1', '.', '*']⟩]
      ∧ (['1', '.', '*'] : Str).contains '*' = true := by
  decide

/-- C3 (amended): every dependency the npm resolver emits without a lockfile
pin has a cleaned version containing no space, no `||`, and no `http`, `git`
or `file:` substring, and not starting with `>`, `<` or `*`; commas,
non-leading `*`, and the empty residue are not rejected. -/
theorem C3_cleanedVersionSafe (direct : List (Str × Str))
    (lock : Str → Option Str) (d : Npm.Dependency)
    (hd : d ∈ Npm.parseNpmDeps direct lock) (hl : lock d.name = none) :
    d.version.contains ' ' = false
      ∧ Npm.containsSub ['|', '|'] d.version = false
      ∧ Npm.containsSub ['h', 't', 't', 'p'] d.version = false
      ∧ Npm.containsSub ['g', 'i', 't'] d.version = false
      ∧ Npm.containsSub ['f', 'i', 'l', 'e', ':'] d.version = false
      ∧ d.version.head? ≠ some '>'
      ∧ d.version.head? ≠ some '<'
      ∧ d.version.head? ≠ some '*' := by
  simp only [Npm.parseNpmDeps, List.mem_filterMap, List.mem_filter] at hd
  obtain ⟨p, ⟨hp, hskip⟩, hmatch⟩ := hd
  cases hlk : lock p.1 with
  | some v =>
    rw [hlk] at hmatch
    simp only [Option.some.injEq] at hmatch
    subst hmatch
    simp only [hlk] at hl
    exact absurd hl (by simp)
  | none =>
    rw [hlk] at hmatch
    simp only [Option.map_eq_some'] at hmatch
    obtain ⟨w, hcv, hdep⟩ := hmatch
    subst hdep
    simp only [Npm.cleanVersion] at hcv
    split at hcv
    · exact absurd hcv (by simp)
    · next hcond =>
      simp only [Option.some.injEq] at hcv
      subst hcv
      simp only [Bool.or_eq_true, not_or, Bool.not_eq_true, beq_iff_eq] at hcond
      obtain ⟨⟨⟨⟨⟨⟨⟨h1, h2⟩, h3⟩, h4⟩, h5⟩, h6⟩, h7⟩, h8⟩ := hcond
      refine ⟨h1, h2, h3, h4, h5, ?_, ?_, ?_⟩ <;> simp_all

/-- Concrete dependency for the C3 witness. -/
def c3wDep : Npm.Dependency := ⟨Npm.npmRegistryStr, ['a'], ['1', '.', '2']⟩

/-- Concrete manifest map for the C3 witness. -/
def c3wDirect : List (Str × Str) := [(['a'], ['1', '.', '2'])]

/-- C3 witness: the amended theorem applied to the concrete manifest entry
`a = "1.2"` with no lockfile. -/
theorem C3_cleanedVersionSafe_witness :
    c3wDep ∈ Npm.parseNpmDeps c3wDirect (fun _ => none)
      ∧ ((['1', '.', '2'] : Str).contains ' ' = false
      ∧ Npm.containsSub ['|', '|'] ['1', '.', '2'] = false
      ∧ Npm.containsSub ['h', 't', 't', 'p'] ['1', '.', '2'] = false
      ∧ Npm.containsSub ['g', 'i', 't'] ['1', '.', '2'] = false
      ∧ Npm.containsSub ['f', 'i', 'l', 'e', ':'] ['1', '.', '2'] = false
      ∧ (['1', '.', '2'] : Str).head? ≠ some '>'
      ∧ (['1', '.', '2'] : Str).head? ≠ some '<'
      ∧ (['1', '.', '2'] : Str).head? ≠ some '*') :=
  ⟨by decide, C3_cleanedVersionSafe c3wDirect (fun _ => none) c3wDep (by decide) rfl⟩

/-- C9: the Go proxy client escapes every ASCII-uppercase character of a
module path as `!` plus its lowercase form (`BurntSushi/toml` becomes
`!burnt!sushi/toml`), normalizes every version to carry a leading `v`, and
strips the `module@version/` prefix from archive entry paths
(`BurntSushi/toml@v0.3.1/decode.go` becomes `decode.go`). -/
theorem C9_goProxyRules :
    GoReg.escapeModule "BurntSushi/toml".toList = "!burnt!sushi/toml".toList
      ∧ (∀ m : Str, GoReg.escapeModule m = m.flatMap GoReg.escRule)
      ∧ (∀ v : Str, (GoReg.normalizeVersion v).head? = some 'v')
      ∧ GoReg.stripModulePrefix "BurntSushi/toml@v0.3.1/decode.go".toList
          = "decode.go".toList := by
  refine ⟨by decide, fun m => ?_, fun v => ?_, by decide⟩
  · simpa [GoReg.escapeModule] using GoReg.escapeModule_go m []
  · unfold GoReg.normalizeVersion
    split
    · next h => exact eq_of_beq h
    · rfl

namespace Index

/-- `VersionStatus` from src/local/models.rs. -/
inductive VersionStatus where
  | pending
  | indexed
  | failed
  | skipped
deriving DecidableEq

/-- The Display impl of `VersionStatus`. -/
def statusToStr : VersionStatus → Str
  | .pending => "pending".toList
  | .indexed => "indexed".toList
  | .failed => "failed".toList
  | .skipped => "skipped".toList

/-- `VersionStatus::from_str` from src/local/models.rs: the four
discriminators parse, anything else is an error. -/
def statusFromStr (s : Str) : Except Str VersionStatus :=
  if s = "pending".toList then .ok .pending
  else if s = "indexed".toList then .ok .indexed
  else if s = "failed".toList then .ok .failed
  else if s = "skipped".toList then .ok .skipped
  else .error ("invalid version status: ".toList ++ s)

/-- `VersionRow::status` from src/local/models.rs:
`self.status.parse().unwrap_or_default()` with `Pending` the default. -/
def parseStatusColumn (s : Str) : VersionStatus :=
  match statusFromStr s with
  | .ok v => v
  | .error _ => .pending

/-- The skip test of `get_or_create_version` in src/local/db.rs:
`matches!(status, VersionStatus::Indexed | VersionStatus::Skipped)`. -/
def shouldSkipStatus : VersionStatus → Bool
  | .indexed => true
  | .skipped => true
  | .pending => false
  | .failed => false

/-- A row of the packages table (src/local/models.rs `PackageRow`; the
timestamp column is not read by any verified operation and is omitted). -/
structure PackageRow where
  id : Str
  registry : Str
  name : Str
  description : Option Str
deriving DecidableEq

/-- A row of the versions table (src/local/models.rs `VersionRow`; timestamp
columns omitted as above). -/
structure VersionRow where
  id : Str
  packageId : Str
  version : Str
  status : Str
  errorMessage : Option Str
  chunkCount : Int
deriving DecidableEq

/-- A row of the chunks table (src/local/models.rs `ChunkRow`); the embedding
vector is stored alongside the row. -/
structure ChunkRow where
  id : Str
  versionId : Str
  namesp : Str
  chunkType : Str
  name : Str
  filePath : Str
  startLine : Nat
  endLine : Nat
  visibility : Str
  signature : Option Str
  docstring : Option Str
  snippet : Str
  storageKey : Str
  contentHash : Str
  vector : List Rat
deriving DecidableEq

/-- The three tables of the SQLite metadata store (src/local/db.rs); an
INSERT appends a row, SELECT order is rowid order. -/
structure Db where
  packages : List PackageRow
  versions : List VersionRow
  chunks : List ChunkRow
deriving DecidableEq

/-- `LocalDb::find_package`. -/
def findPackage (db : Db) (registry name : Str) : Option PackageRow :=
  db.packages.find? fun p => p.registry == registry && p.name == name

/-- `LocalDb::get_or_create_package`: return the found id or insert a fresh
row (its uuid supplied by the caller) with no description. -/
def getOrCreatePackage (db : Db) (registry name newId : Str) : Str × Db :=
  match findPackage db registry name with
  | some p => (p.id, db)
  | none =>
    (newId, { db with packages := db.packages ++ [⟨newId, registry, name, none⟩] })

/-- `LocalDb::find_version_by_package`. -/
def findVersionByPackage (db : Db) (packageId version : Str) : Option VersionRow :=
  db.versions.find? fun r => r.packageId == packageId && r.version == version

/-- `LocalDb::get_or_create_version`: returns `(version_id, should_skip)` and
inserts a `'pending'` row when none exists. -/
def getOrCreateVersion (db : Db) (packageId version newId : Str) :
    (Str × Bool) × Db :=
  match findVersionByPackage db packageId version with
  | some ver => ((ver.id, shouldSkipStatus (parseStatusColumn ver.status)), db)
  | none =>
    ((newId, false),
      { db with versions :=
          db.versions ++ [⟨newId, packageId, version, "pending".toList, none, 0⟩] })

/-- The row update of the `mark_version_indexed` SQL UPDATE. -/
def markIndexedRow (versionId : Str) (chunkCount : Int) (r : VersionRow) :
    VersionRow :=
  if r.id == versionId then
    { r with status := "indexed".toList, chunkCount := chunkCount,
             errorMessage := none }
  else r

/-- `LocalDb::mark_version_indexed`: status `'indexed'`, the chunk count, and
a cleared error message on every row with the given id. -/
def markVersionIndexed (db : Db) (versionId : Str) (chunkCount : Int) : Db :=
  { db with versions := db.versions.map (markIndexedRow versionId chunkCount) }

/-- The row update of the `mark_version_failed` SQL UPDATE. -/
def markFailedRow (versionId error : Str) (r : VersionRow) : VersionRow :=
  if r.id == versionId then
    { r with status := "failed".toList, errorMessage := some error }
  else r

/-- `LocalDb::mark_version_failed`: status `'failed'` with the error. -/
def markVersionFailed (db : Db) (versionId : Str) (error : Str) : Db :=
  { db with versions := db.versions.map (markFailedRow versionId error) }

/-- `LocalDb::mark_version_pending`: status `'pending'`, error cleared. -/
def markVersionPending (db : Db) (versionId : Str) : Db :=
  { db with versions := db.versions.map fun r =>
      if r.id == versionId then
        { r with status := "pending".toList, errorMessage := none }
      else r }

/-- `LocalDb::insert_chunks`: the per-row INSERT loop appends each row. -/
def insertChunksDb (db : Db) (cs : List ChunkRow) : Db :=
  { db with chunks := db.chunks ++ cs }

/-- SELECT DISTINCT namespace FROM chunks WHERE version_id = ?. -/
def versionNamespaces (db : Db) (versionId : Str) : List Str :=
  (((db.chunks.filter fun c => c.versionId == versionId).map
    fun c => c.namesp)).dedup

/-- DELETE FROM chunks WHERE version_id = ?. -/
def deleteVersionChunksStep (db : Db) (versionId : Str) : Db :=
  { db with chunks := db.chunks.filter fun c => !(c.versionId == versionId) }

/-- DELETE FROM versions WHERE id = ?. -/
def deleteVersionRowStep (db : Db) (versionId : Str) : Db :=
  { db with versions := db.versions.filter fun r => !(r.id == versionId) }

/-- `LocalDb::delete_version`: collect the namespaces, delete the chunk rows,
then delete the version row. -/
def deleteVersionDb (db : Db) (versionId : Str) : List Str × Db :=
  (versionNamespaces db versionId,
    deleteVersionRowStep (deleteVersionChunksStep db versionId) versionId)

/-- `LocalDb::list_versions_by_status`: WHERE status = ?. -/
def listVersionsByStatus (db : Db) (st : VersionStatus) : List VersionRow :=
  db.versions.filter fun r => r.status == statusToStr st

/-- `LocalDb::find_version` (join of versions and packages on the spec
`registry:name@version`), reduced to the version row it selects. -/
def findVersionSpec (db : Db) (registry name version : Str) : Option VersionRow :=
  match findPackage db registry name with
  | some p => findVersionByPackage db p.id version
  | none => none

/-- `RetryCmd::run` with `--all` (src/commands/retry.rs): list the failed
versions and mark each pending. -/
def retryAllCmd (db : Db) : Db :=
  (listVersionsByStatus db .failed).foldl (fun d v => markVersionPending d v.id) db

/-- `RetryCmd::run` with an explicit `registry:name@version` spec
(src/commands/retry.rs): find the version and mark it pending, whatever its
current status; an unknown spec errors out leaving the store unchanged. -/
def retrySpecCmd (db : Db) (registry name version : Str) : Db :=
  match findVersionSpec db registry name version with
  | some ver => markVersionPending db ver.id
  | none => db

/-- An entry of one vector-store namespace table
(src/local/models.rs `VectorRecord`). -/
structure VectorRecord where
  chunkId : Str
  contentHash : Str
  vector : List Rat
deriving DecidableEq

/-- The whole local store: metadata tables, the per-namespace vector tables,
and the set of blob keys present on disk. -/
structure Store where
  db : Db
  vectors : List (Str × List VectorRecord)
  blobs : List Str
deriving DecidableEq

/-- `VectorStore::insert` (src/local/vector.rs): empty batches return early;
otherwise get-or-create the namespace table and append the records. -/
def vectorInsert (tables : List (Str × List VectorRecord)) (ns : Str)
    (recs : List VectorRecord) : List (Str × List VectorRecord) :=
  if recs.isEmpty then tables
  else
    match tables.find? fun t => t.1 == ns with
    | some _ => tables.map fun t => if t.1 == ns then (t.1, t.2 ++ recs) else t
    | none => tables ++ [(ns, recs)]

/-- `VectorStore::delete_namespace`: idempotent drop of the table. -/
def deleteNamespaceStep (s : Store) (ns : Str) : Store :=
  { s with vectors := s.vectors.filter fun t => !(t.1 == ns) }

/-- The storage key `LocalStorage::put` computes:
`{registry}/{name}/{version}/{hash}`. -/
def blobKey (registry name version hash : Str) : Str :=
  registry ++ '/' :: name ++ '/' :: version ++ '/' :: hash

/-- The directory prefix `LocalStorage::delete_package` removes. -/
def blobDirPrefix (registry name version : Str) : Str :=
  registry ++ '/' :: name ++ '/' :: version ++ ['/']

/-- `LocalStorage::put` on the key set: write-if-absent. -/
def blobPut (blobs : List Str) (key : Str) : List Str :=
  if blobs.contains key then blobs else blobs ++ [key]

/-- `LocalStorage::delete_package`: recursively remove every blob under the
version directory. -/
def deleteBlobDir (s : Store) (registry name version : Str) : Store :=
  { s with blobs := s.blobs.filter fun k =>
      !(Npm.startsWithStr (blobDirPrefix registry name version) k) }

/-- The per-version removal flow of src/commands/prune.rs (the same order as
`RemoveCmd::run` in src/commands/remove.rs): the store states it passes
through, in order — initial, after the chunk-row DELETE, after the
version-row DELETE (both inside `LocalDb::delete_version`), after dropping
the vector namespaces, and after deleting the blob directory. -/
def removeVersionStates (s : Store) (versionId registry name version : Str) :
    List Store :=
  let namespaces := versionNamespaces s.db versionId
  let s1 : Store := { s with db := deleteVersionChunksStep s.db versionId }
  let s2 : Store := { s1 with db := deleteVersionRowStep s1.db versionId }
  let s3 : Store := namespaces.foldl (fun st ns => deleteNamespaceStep st ns) s2
  let s4 : Store := deleteBlobDir s3 registry name version
  [s, s1, s2, s3, s4]

end Index

namespace Index

theorem filter_not_filter_eq_nil (l : List ChunkRow) (p : ChunkRow → Bool) :
    (l.filter fun c => !(p c)).filter p = [] := by
  induction l with
  | nil => rfl
  | cons c t ih =>
    by_cases h : p c = true
    · simp [List.filter_cons, h, ih]
    · simp only [Bool.not_eq_true] at h
      simp [List.filter_cons, h, ih]

theorem find?_none_of_filter_not (l : List VersionRow) (p : VersionRow → Bool) :
    (l.filter fun r => !(p r)).find? p = none := by
  rw [List.find?_eq_none]
  intro x hx
  have := (List.mem_filter.mp hx).2
  simpa using this

theorem nsFold_db (l : List Str) (st : Store) :
    (l.foldl (fun st ns => deleteNamespaceStep st ns) st).db = st.db := by
  induction l generalizing st with
  | nil => rfl
  | cons ns t ih => simpa [deleteNamespaceStep] using ih (deleteNamespaceStep st ns)

theorem nsFold_blobs (l : List Str) (st : Store) :
    (l.foldl (fun st ns => deleteNamespaceStep st ns) st).blobs = st.blobs := by
  induction l generalizing st with
  | nil => rfl
  | cons ns t ih => simpa [deleteNamespaceStep] using ih (deleteNamespaceStep st ns)

theorem find?_none_of_filter (l : List (Str × List VectorRecord))
    (p q : Str × List VectorRecord → Bool) (h : l.find? p = none) :
    (l.filter q).find? p = none := by
  rw [List.find?_eq_none] at h ⊢
  intro x hx
  exact h x (List.mem_filter.mp hx).1

theorem nsFold_find_mono (l : List Str) (st : Store)
    (p : Str × List VectorRecord → Bool) (h : st.vectors.find? p = none) :
    (l.foldl (fun st ns => deleteNamespaceStep st ns) st).vectors.find? p = none := by
  induction l generalizing st with
  | nil => exact h
  | cons ns t ih =>
    exact ih (deleteNamespaceStep st ns) (find?_none_of_filter _ _ _ h)

theorem nsFold_find_none (l : List Str) (st : Store) (ns : Str) (hns : ns ∈ l) :
    ((l.foldl (fun st ns => deleteNamespaceStep st ns) st).vectors.find?
      fun t => t.1 == ns) = none := by
  induction l generalizing st with
  | nil => cases hns
  | cons x t ih =>
    rcases List.mem_cons.mp hns with h | h
    · subst h
      refine nsFold_find_mono t (deleteNamespaceStep st ns) _ ?_
      rw [List.find?_eq_none]
      intro y hy
      have := (List.mem_filter.mp hy).2
      simpa using this
    · exact ih (deleteNamespaceStep st x) h

end Index

/-- Concrete chunk row used by the C2 scenario. -/
def c2chunk : Index.ChunkRow :=
  { id := "c1".toList
    versionId := "v1".toList
    namesp := "npm/a/1".toList
    chunkType := "function".toList
    name := ['f']
    filePath := "f.js".toList
    startLine := 1
    endLine := 2
    visibility := "public".toList
    signature := none
    docstring := none
    snippet := ['x']
    storageKey := "npm/a/1/h".toList
    contentHash := ['h']
    vector := [1] }

/-- Concrete store holding one fully indexed version, used by the C2
scenario. -/
def c2store : Index.Store :=
  { db := { packages := [⟨"p1".toList, "npm".toList, ['a'], none⟩]
            versions := [⟨"v1".toList, "p1".toList, ['1'],
              "indexed".toList, none, 1⟩]
            chunks := [c2chunk] }
    vectors := [("npm/a/1".toList, [⟨"c1".toList, ['h'], [1]⟩])]
    blobs := ["npm/a/1/h".toList] }

/-- C2 counterexample: removing a version passes through a state in which the
Version row is already deleted while its vector entries and blobs are still
present, so the three artifacts are not all removed strictly before the
Version row. -/
theorem C2_counterexample :
    ∃ st ∈ Index.removeVersionStates c2store "v1".toList "npm".toList ['a'] ['1'],
      (st.db.versions.find? fun r => r.id == "v1".toList) = none
        ∧ st.vectors ≠ [] ∧ st.blobs ≠ [] := by
  decide

/-- C2 (amended): removing a Version deletes its chunk rows strictly before
the Version row and deletes the vector-store namespaces and the blobs under
the version prefix strictly after it; in every intermediate state, if chunk
rows for the Version remain then the Version row remains, and the final state
retains none of the four. -/
theorem C2_removalOrder (s : Index.Store) (vid registry name version : Str)
    (hrow : (s.db.versions.find? fun r => r.id == vid).isSome = true) :
    ∃ s1 s2 s3 s4 : Index.Store,
      Index.removeVersionStates s vid registry name version = [s, s1, s2, s3, s4]
      ∧ ((s1.db.chunks.filter fun c => c.versionId == vid) = []
          ∧ (s1.db.versions.find? fun r => r.id == vid).isSome = true)
      ∧ ((s2.db.versions.find? fun r => r.id == vid) = none
          ∧ s2.vectors = s.vectors ∧ s2.blobs = s.blobs)
      ∧ ((s4.db.chunks.filter fun c => c.versionId == vid) = []
          ∧ (s4.db.versions.find? fun r => r.id == vid) = none
          ∧ (∀ ns ∈ Index.versionNamespaces s.db vid,
              (s4.vectors.find? fun t => t.1 == ns) = none)
          ∧ (∀ k ∈ s4.blobs,
              Npm.startsWithStr (Index.blobDirPrefix registry name version) k
                = false))
      ∧ (∀ st ∈ Index.removeVersionStates s vid registry name version,
          (∃ c ∈ st.db.chunks, c.versionId = vid) →
          (st.db.versions.find? fun r => r.id == vid).isSome = true) := by
  refine ⟨_, _, _, _, rfl, ⟨?_, ?_⟩, ⟨?_, rfl, rfl⟩, ⟨?_, ?_, ?_, ?_⟩, ?_⟩
  · exact Index.filter_not_filter_eq_nil _ _
  · exact hrow
  · exact Index.find?_none_of_filter_not _ _
  · show (((Index.versionNamespaces s.db vid).foldl
        (fun st ns => Index.deleteNamespaceStep st ns) _).db.chunks.filter
        fun c => c.versionId == vid) = []
    rw [Index.nsFold_db]
    exact Index.filter_not_filter_eq_nil _ _
  · show (((Index.versionNamespaces s.db vid).foldl
        (fun st ns => Index.deleteNamespaceStep st ns) _).db.versions.find?
        fun r => r.id == vid) = none
    rw [Index.nsFold_db]
    exact Index.find?_none_of_filter_not _ _
  · intro ns hns
    exact Index.nsFold_find_none _ _ ns hns
  · intro k hk
    have := (List.mem_filter.mp hk).2
    simpa using this
  · intro st hst hchunk
    simp only [Index.removeVersionStates, List.mem_cons, List.not_mem_nil,
      or_false] at hst
    obtain ⟨c, hc, hcv⟩ := hchunk
    rcases hst with h | h | h | h | h
    · rw [h]; exact hrow
    · subst h
      exfalso
      have := (List.mem_filter.mp hc).2
      simp [hcv] at this
    · subst h
      exfalso
      have := (List.mem_filter.mp hc).2
      simp [hcv] at this
    · subst h
      exfalso
      rw [Index.nsFold_db] at hc
      have := (List.mem_filter.mp hc).2
      simp [hcv] at this
    · subst h
      exfalso
      simp only [Index.deleteBlobDir] at hc
      rw [Index.nsFold_db] at hc
      have := (List.mem_filter.mp hc).2
      simp [hcv] at this

/-- C2 witness: the amended removal-order theorem applied to the concrete
store holding one indexed version with one chunk, vector entry and blob. -/
theorem C2_removalOrder_witness :
    ∃ s1 s2 s3 s4 : Index.Store,
      Index.removeVersionStates c2store "v1".toList "npm".toList ['a'] ['1']
        = [c2store, s1, s2, s3, s4]
      ∧ ((s1.db.chunks.filter fun c => c.versionId == "v1".toList) = []
          ∧ (s1.db.versions.find? fun r => r.id == "v1".toList).isSome = true)
      ∧ ((s2.db.versions.find? fun r => r.id == "v1".toList) = none
          ∧ s2.vectors = c2store.vectors ∧ s2.blobs = c2store.blobs)
      ∧ ((s4.db.chunks.filter fun c => c.versionId == "v1".toList) = []
          ∧ (s4.db.versions.find? fun r => r.id == "v1".toList) = none
          ∧ (∀ ns ∈ Index.versionNamespaces c2store.db "v1".toList,
              (s4.vectors.find? fun t => t.1 == ns) = none)
          ∧ (∀ k ∈ s4.blobs,
              Npm.startsWithStr (Index.blobDirPrefix "npm".toList ['a'] ['1']) k
                = false))
      ∧ (∀ st ∈ Index.removeVersionStates c2store "v1".toList "npm".toList
            ['a'] ['1'],
          (∃ c ∈ st.db.chunks, c.versionId = "v1".toList) →
          (st.db.versions.find? fun r => r.id == "v1".toList).isSome = true) :=
  C2_removalOrder c2store "v1".toList "npm".toList ['a'] ['1'] (by decide)

/-- C10: a stored status string that is none of the four discriminators
parses to `Pending` via the `unwrap_or_default` fallback, so the skip check
of `get_or_create_version` treats such a row as pending, not as indexed. -/
theorem C10_unknownStatusPending (s : Str)
    (h1 : s ≠ "pending".toList) (h2 : s ≠ "indexed".toList)
    (h3 : s ≠ "failed".toList) (h4 : s ≠ "skipped".toList) :
    Index.parseStatusColumn s = .pending
      ∧ Index.shouldSkipStatus (Index.parseStatusColumn s) = false
      ∧ ∀ (db : Index.Db) (packageId version newId : Str)
          (row : Index.VersionRow),
          Index.findVersionByPackage db packageId version = some row →
          row.status = s →
          (Index.getOrCreateVersion db packageId version newId).1.2 = false := by
  have hp : Index.parseStatusColumn s = .pending := by
    unfold Index.parseStatusColumn Index.statusFromStr
    rw [if_neg h1, if_neg h2, if_neg h3, if_neg h4]
  refine ⟨hp, by rw [hp]; rfl, ?_⟩
  intro db pid ver nid row hfind hst
  unfold Index.getOrCreateVersion
  rw [hfind]
  simp [hst, hp, Index.shouldSkipStatus]

/-- C10 witness: the fallback theorem applied to the unrecognized status
string `corrupt`. -/
theorem C10_unknownStatusPending_witness :
    Index.parseStatusColumn "corrupt".toList = .pending
      ∧ Index.shouldSkipStatus (Index.parseStatusColumn "corrupt".toList) = false
      ∧ ∀ (db : Index.Db) (packageId version newId : Str)
          (row : Index.VersionRow),
          Index.findVersionByPackage db packageId version = some row →
          row.status = "corrupt".toList →
          (Index.getOrCreateVersion db packageId version newId).1.2 = false :=
  C10_unknownStatusPending "corrupt".toList (by decide) (by decide) (by decide)
    (by decide)

/-- Concrete database holding one indexed version, used to exhibit the retry
command's behaviour on an `Indexed` row. -/
def c5db : Index.Db :=
  { packages := [⟨"p1".toList, "npm".toList, ['a'], none⟩]
    versions := [⟨"v1".toList, "p1".toList, ['1'], "indexed".toList, none, 3⟩]
    chunks := [] }

/-- C5: `retry registry:name@version` on a Version whose status is `Indexed`
rewrites its status to `pending`, although the spec's status machine (and the
retry command's own doc comment) admit the retry transition only from
`Failed` or `Skipped`; the failed/skipped-to-pending direction does hold, as
does the `--all` path, which touches only `Failed` rows. -/
theorem C5_retryResetsIndexed :
    (Index.retrySpecCmd c5db "npm".toList ['a'] ['1']).versions
        = [⟨"v1".toList, "p1".toList, ['1'], "pending".toList, none, 3⟩]
      ∧ (∀ db : Index.Db, ∀ row ∈ Index.listVersionsByStatus db .failed,
          row.status = "failed".toList)
      ∧ Index.retryAllCmd c5db = c5db := by
  refine ⟨by decide, ?_, by decide⟩
  intro db row hrow
  have := (List.mem_filter.mp hrow).2
  simpa [Index.statusToStr] using this

namespace Index

/-- A downloaded source file (src/registry/client.rs `PackageFile`). -/
structure PackageFile where
  path : Str
  content : Str
deriving DecidableEq

/-- A parsed code chunk as `index_package` consumes it: the CodeChunk fields
its storage loop reads, with `chunk_type` and `visibility` already formatted
and the display snippet (`chunk.snippet(500)`) precomputed. -/
structure ParsedChunk where
  chunkType : Str
  visibility : Str
  name : Str
  signature : Option Str
  code : Str
  documentation : Option Str
  filePath : Str
  startLine : Nat
  endLine : Nat
  snippet500 : Str
deriving DecidableEq

/-- The environment a run of `LocalIndexer::index_package` executes in: the
registry download result, the tree-sitter parse (`parse_files`, filters
included), the embeddings call, whether each fallible store operation
succeeds, the sha256 hex function, and the uuid streams.  Every `?` of the
source is fallible here: `blobOk i` is the fate of the i-th `storage.put`
call of the run, `dbRowOk i` the fate of the i-th per-row INSERT of
`insert_chunks`, and `markIndexedOk` the fate of the final
`mark_version_indexed` UPDATE. -/
structure IndexEnv where
  download : Except Str (List PackageFile)
  parseFiles : List PackageFile → List ParsedChunk
  embed : List ParsedChunk → Except Str (List (List Rat))
  blobOk : Nat → Bool
  blobErr : Str
  vectorInsertOk : Bool
  vectorErr : Str
  dbRowOk : Nat → Bool
  dbErr : Str
  markIndexedOk : Bool
  markErr : Str
  hash : Str → Str
  newPackageId : Str
  newVersionId : Str
  chunkIds : Nat → Str

/-- `IndexResult` from src/local/indexer.rs. -/
structure IndexResult where
  versionId : Str
  chunksIndexed : Nat
  filesProcessed : Nat
  skipped : Bool
deriving DecidableEq

/-- What a run of `index_package` leaves behind: the returned value, the
store, the id of the Version row the run touched, and whether the download
step ran. -/
structure IndexOutcome where
  result : Except Str IndexResult
  store : Store
  vid : Str
  downloaded : Bool

/-- The namespace string `format!("{}/{}/{}", registry, name, version)`. -/
def namespaceStr (registry name version : Str) : Str :=
  registry ++ '/' :: name ++ '/' :: version

/-- The vector record iteration `i` of the storage loop pushes. -/
def vrecOf (env : IndexEnv) (i : Nat) (q : ParsedChunk × List Rat) :
    VectorRecord :=
  ⟨env.chunkIds i, env.hash q.1.code, q.2⟩

/-- The `CreateChunk` record iteration `i` of the storage loop pushes. -/
def chunkRowOf (env : IndexEnv) (registry name version versionId : Str)
    (i : Nat) (q : ParsedChunk × List Rat) : ChunkRow :=
  { id := env.chunkIds i
    versionId := versionId
    namesp := namespaceStr registry name version
    chunkType := q.1.chunkType
    name := q.1.name
    filePath := q.1.filePath
    startLine := q.1.startLine
    endLine := q.1.endLine
    visibility := q.1.visibility
    signature := q.1.signature
    docstring := q.1.documentation
    snippet := q.1.snippet500
    storageKey := blobKey registry name version (env.hash q.1.code)
    contentHash := env.hash q.1.code
    vector := q.2 }

/-- The vector records a storage loop that completes builds. -/
def runVectorRecords (env : IndexEnv) (paired : List (ParsedChunk × List Rat)) :
    List VectorRecord :=
  paired.enum.map fun q => vrecOf env q.1 q.2

/-- The chunk rows a storage loop that completes builds. -/
def runChunkRows (env : IndexEnv) (registry name version versionId : Str)
    (paired : List (ParsedChunk × List Rat)) : List ChunkRow :=
  paired.enum.map fun q => chunkRowOf env registry name version versionId q.1 q.2

/-- The blob puts the storage loop performs, in order. -/
def runBlobs (env : IndexEnv) (registry name version : Str)
    (paired : List (ParsedChunk × List Rat)) (blobs : List Str) : List Str :=
  paired.foldl
    (fun bs q => blobPut bs (blobKey registry name version (env.hash q.1.code)))
    blobs

/-- The storage loop of `index_package` (indexer.rs, the
`for (chunk, embedding)` loop): each iteration performs one `storage.put`
and, when it succeeds, pushes the vector record and the chunk row.  A
failing put aborts the loop with `?`, keeping the blobs already written and
discarding the records accumulated so far. -/
def storeLoop (env : IndexEnv) (registry name version versionId : Str) :
    Nat → List (ParsedChunk × List Rat) → List Str →
    List Str × Except Str (List VectorRecord × List ChunkRow)
  | _, [], bs => (bs, .ok ([], []))
  | i, q :: t, bs =>
    if env.blobOk i then
      match storeLoop env registry name version versionId (i + 1) t
          (blobPut bs (blobKey registry name version (env.hash q.1.code))) with
      | (bsf, .ok (vrs, rws)) =>
        (bsf, .ok (vrecOf env i q :: vrs,
          chunkRowOf env registry name version versionId i q :: rws))
      | (bsf, .error e) => (bsf, .error e)
    else (bs, .error env.blobErr)

/-- `LocalDb::insert_chunks` (db.rs): a per-row INSERT loop with no
transaction; a failing INSERT aborts with `?`, keeping the rows already
inserted. -/
def insertChunksLoop (env : IndexEnv) :
    Nat → List ChunkRow → Db → Db × Except Str Unit
  | _, [], db => (db, .ok ())
  | i, r :: t, db =>
    if env.dbRowOk i then
      insertChunksLoop env (i + 1) t { db with chunks := db.chunks ++ [r] }
    else (db, .error env.dbErr)

/-- Steps 3 onward of `LocalIndexer::index_package` (after the skip check),
as the pair of the returned value and the final store: download, parse,
embed, the storage loop (blob puts), the vector insert, the chunk-row
INSERT loop, and the final `mark_version_indexed`.  A download, embedding,
vector-insert or chunk-insert failure marks the version failed and
propagates; a blob-put failure or a failure of the `mark_version_indexed`
UPDATE propagates with `?` WITHOUT marking the version failed.  `s0`
already holds the get-or-create results. -/
def coreRS (env : IndexEnv) (registry name version versionId : Str)
    (s0 : Store) : Except Str IndexResult × Store :=
  match env.download with
  | .error e => (.error e, { s0 with db := markVersionFailed s0.db versionId e })
  | .ok files =>
    if (env.parseFiles files).isEmpty then
      if env.markIndexedOk then
        (.ok ⟨versionId, 0, files.length, false⟩,
          { s0 with db := markVersionIndexed s0.db versionId 0 })
      else (.error env.markErr, s0)
    else
      match env.embed (env.parseFiles files) with
      | .error e =>
        (.error e, { s0 with db := markVersionFailed s0.db versionId e })
      | .ok embeddings =>
        match storeLoop env registry name version versionId 0
            ((env.parseFiles files).zip embeddings) s0.blobs with
        | (bs2, .error e) => (.error e, { s0 with blobs := bs2 })
        | (bs2, .ok (vrs, rws)) =>
          if env.vectorInsertOk then
            match insertChunksLoop env 0 rws s0.db with
            | (db2, .error e) =>
              (.error e,
                { db := markVersionFailed db2 versionId e,
                  vectors := vectorInsert s0.vectors
                    (namespaceStr registry name version) vrs,
                  blobs := bs2 })
            | (db2, .ok _) =>
              if env.markIndexedOk then
                (.ok ⟨versionId, rws.length, files.length, false⟩,
                  { db := markVersionIndexed db2 versionId (rws.length : Int),
                    vectors := vectorInsert s0.vectors
                      (namespaceStr registry name version) vrs,
                    blobs := bs2 })
              else
                (.error env.markErr,
                  { db := db2,
                    vectors := vectorInsert s0.vectors
                      (namespaceStr registry name version) vrs,
                    blobs := bs2 })
          else
            (.error env.vectorErr,
              { db := markVersionFailed s0.db versionId env.vectorErr,
                vectors := s0.vectors,
                blobs := bs2 })

/-- Steps 3 onward of `index_package` packaged as an `IndexOutcome`. -/
def indexPackageCore (env : IndexEnv) (registry name version versionId : Str)
    (s0 : Store) : IndexOutcome :=
  { result := (coreRS env registry name version versionId s0).1,
    store := (coreRS env registry name version versionId s0).2,
    vid := versionId, downloaded := true }

/-- `LocalIndexer::index_package` from src/local/indexer.rs: get-or-create
package and version (steps 1 and 2), return a skipped result when the
version status is Indexed or Skipped, else run the rest of the pipeline. -/
def indexPackage (env : IndexEnv) (registry name version : Str) (s : Store) :
    IndexOutcome :=
  let pkg := getOrCreatePackage s.db registry name env.newPackageId
  let ver := getOrCreateVersion pkg.2 pkg.1 version env.newVersionId
  let versionId := ver.1.1
  let s0 : Store := { s with db := ver.2 }
  if ver.1.2 then
    { result := .ok ⟨versionId, 0, 0, true⟩, store := s0, vid := versionId,
      downloaded := false }
  else
    indexPackageCore env registry name version versionId s0

end Index

namespace Index

theorem mem_blobPut_self (bs : List Str) (k : Str) : k ∈ blobPut bs k := by
  unfold blobPut
  split
  · next h => exact List.mem_of_elem_eq_true h
  · exact List.mem_append_right _ (List.mem_singleton.mpr rfl)

theorem mem_blobPut_mono (bs : List Str) (k k' : Str) (h : k ∈ bs) :
    k ∈ blobPut bs k' := by
  unfold blobPut
  split
  · exact h
  · exact List.mem_append_left _ h

theorem mem_runBlobs_mono (env : IndexEnv) (registry name version : Str)
    (paired : List (ParsedChunk × List Rat)) (bs : List Str) (k : Str)
    (h : k ∈ bs) : k ∈ runBlobs env registry name version paired bs := by
  induction paired generalizing bs with
  | nil => exact h
  | cons q t ih => exact ih _ (mem_blobPut_mono _ _ _ h)

theorem mem_runBlobs (env : IndexEnv) (registry name version : Str)
    (paired : List (ParsedChunk × List Rat)) (bs : List Str)
    (q : ParsedChunk × List Rat) (hq : q ∈ paired) :
    blobKey registry name version (env.hash q.1.code)
      ∈ runBlobs env registry name version paired bs := by
  induction paired generalizing bs with
  | nil => cases hq
  | cons q' t ih =>
    rcases List.mem_cons.mp hq with h | h
    · subst h
      exact mem_runBlobs_mono env registry name version t _ _
        (mem_blobPut_self _ _)
    · exact ih _ h

theorem vectorInsert_mem (tables : List (Str × List VectorRecord)) (ns : Str)
    (recs : List VectorRecord) (rec : VectorRecord) (hne : recs ≠ [])
    (hr : rec ∈ recs) :
    ∃ t ∈ vectorInsert tables ns recs, t.1 = ns ∧ rec ∈ t.2 := by
  unfold vectorInsert
  rw [if_neg (by simpa using hne)]
  cases hfind : tables.find? fun t => t.1 == ns with
  | some t0 =>
    have ht0 := List.find?_some hfind
    have hmem : t0 ∈ tables := List.mem_of_find?_eq_some hfind
    refine ⟨(t0.1, t0.2 ++ recs), ?_, by simpa using ht0, ?_⟩
    · have : (fun t => if t.1 == ns then (t.1, t.2 ++ recs) else t) t0
          = (t0.1, t0.2 ++ recs) := by simp [ht0]
      exact this ▸ List.mem_map_of_mem _ hmem
    · exact List.mem_append_right _ hr
  | none =>
    exact ⟨(ns, recs), List.mem_append_right _ (List.mem_singleton.mpr rfl),
      rfl, hr⟩

theorem exists_failed_row (db : Db) (vid msg : Str)
    (h : ∃ row ∈ db.versions, row.id = vid) :
    ∃ row ∈ (markVersionFailed db vid msg).versions,
      row.id = vid ∧ row.status = "failed".toList := by
  obtain ⟨row, hmem, hid⟩ := h
  refine ⟨markFailedRow vid msg row, List.mem_map_of_mem _ hmem, ?_, ?_⟩
  · unfold markFailedRow
    split <;> simp [hid]
  · unfold markFailedRow
    rw [if_pos (by simp [hid])]

theorem getOrCreateVersion_exists_row (db : Db) (pid v nid : Str) :
    ∃ row ∈ (getOrCreateVersion db pid v nid).2.versions,
      row.id = (getOrCreateVersion db pid v nid).1.1 := by
  unfold getOrCreateVersion
  cases h : findVersionByPackage db pid v with
  | some row => exact ⟨row, List.mem_of_find?_eq_some h, rfl⟩
  | none =>
    exact ⟨⟨nid, pid, v, "pending".toList, none, 0⟩,
      List.mem_append_right _ (List.mem_singleton.mpr rfl), rfl⟩

theorem getOrCreateVersion_chunks (db : Db) (pid v nid : Str) :
    (getOrCreateVersion db pid v nid).2.chunks = db.chunks := by
  unfold getOrCreateVersion
  cases h : findVersionByPackage db pid v <;> simp

theorem getOrCreatePackage_chunks (db : Db) (r n nid : Str) :
    (getOrCreatePackage db r n nid).2.chunks = db.chunks := by
  unfold getOrCreatePackage
  cases h : findPackage db r n <;> simp

theorem getOrCreatePackage_versions (db : Db) (r n nid : Str) :
    (getOrCreatePackage db r n nid).2.versions = db.versions := by
  unfold getOrCreatePackage
  cases h : findPackage db r n <;> simp

end Index


namespace Index

theorem storeLoop_ok (env : IndexEnv) (registry name version versionId : Str)
    (paired : List (ParsedChunk × List Rat)) :
    ∀ (i : Nat) (bs : List Str),
    (∀ k, k < paired.length → env.blobOk (i + k) = true) →
    storeLoop env registry name version versionId i paired bs
      = (runBlobs env registry name version paired bs,
         .ok ((paired.enumFrom i).map fun q => vrecOf env q.1 q.2,
              (paired.enumFrom i).map fun q =>
                chunkRowOf env registry name version versionId q.1 q.2)) := by
  induction paired with
  | nil =>
    intro i bs _
    simp [storeLoop, runBlobs]
  | cons q t ih =>
    intro i bs hall
    have h0 : env.blobOk i = true := by simpa using hall 0 (by simp)
    have hrec := ih (i + 1)
      (blobPut bs (blobKey registry name version (env.hash q.1.code)))
      (fun k hk => by
        rw [show i + 1 + k = i + (k + 1) from by omega]
        exact hall (k + 1) (by simpa using Nat.succ_lt_succ hk))
    simp only [storeLoop, h0, if_true, hrec, runBlobs, List.foldl_cons,
      List.enumFrom_cons, List.map_cons]

theorem storeLoop_ok0 (env : IndexEnv) (registry name version versionId : Str)
    (paired : List (ParsedChunk × List Rat)) (bs : List Str)
    (hall : ∀ k, k < paired.length → env.blobOk k = true) :
    storeLoop env registry name version versionId 0 paired bs
      = (runBlobs env registry name version paired bs,
         .ok (runVectorRecords env paired,
              runChunkRows env registry name version versionId paired)) := by
  have h := storeLoop_ok env registry name version versionId paired 0 bs
    (fun k hk => by simpa using hall k hk)
  unfold runVectorRecords runChunkRows
  rw [show paired.enum = paired.enumFrom 0 from rfl]
  exact h

theorem storeLoop_fail (env : IndexEnv) (registry name version versionId : Str)
    (paired : List (ParsedChunk × List Rat)) :
    ∀ (i j : Nat) (bs : List Str),
    env.blobOk (i + j) = false →
    (∀ k, k < j → env.blobOk (i + k) = true) →
    j < paired.length →
    storeLoop env registry name version versionId i paired bs
      = (runBlobs env registry name version (paired.take j) bs,
         .error env.blobErr) := by
  induction paired with
  | nil =>
    intro i j bs _ _ hlt
    simp at hlt
  | cons q t ih =>
    intro i j bs hj hmin hlt
    cases j with
    | zero =>
      have h0 : env.blobOk i = false := by simpa using hj
      simp [storeLoop, h0, runBlobs]
    | succ j2 =>
      have h0 : env.blobOk i = true := by simpa using hmin 0 (Nat.succ_pos _)
      have hrec := ih (i + 1) j2
        (blobPut bs (blobKey registry name version (env.hash q.1.code)))
        (by rw [show i + 1 + j2 = i + (j2 + 1) from by omega]; exact hj)
        (fun k hk => by
          rw [show i + 1 + k = i + (k + 1) from by omega]
          exact hmin (k + 1) (by omega))
        (by simpa using Nat.lt_of_succ_lt_succ hlt)
      simp only [storeLoop, h0, if_true, hrec, List.take_succ_cons, runBlobs,
        List.foldl_cons]

theorem insertChunksLoop_ok (env : IndexEnv) (rows : List ChunkRow) :
    ∀ (i : Nat) (db : Db),
    (∀ k, k < rows.length → env.dbRowOk (i + k) = true) →
    insertChunksLoop env i rows db = (insertChunksDb db rows, .ok ()) := by
  induction rows with
  | nil =>
    intro i db _
    simp [insertChunksLoop, insertChunksDb]
  | cons r t ih =>
    intro i db hall
    have h0 : env.dbRowOk i = true := by simpa using hall 0 (by simp)
    have hrec := ih (i + 1) { db with chunks := db.chunks ++ [r] }
      (fun k hk => by
        rw [show i + 1 + k = i + (k + 1) from by omega]
        exact hall (k + 1) (by simpa using Nat.succ_lt_succ hk))
    simp only [insertChunksLoop, h0, if_true, hrec, insertChunksDb]
    simp

theorem insertChunksLoop_fail (env : IndexEnv) (rows : List ChunkRow) :
    ∀ (i j : Nat) (db : Db),
    env.dbRowOk (i + j) = false →
    (∀ k, k < j → env.dbRowOk (i + k) = true) →
    j < rows.length →
    insertChunksLoop env i rows db
      = (insertChunksDb db (rows.take j), .error env.dbErr) := by
  induction rows with
  | nil =>
    intro i j db _ _ hlt
    simp at hlt
  | cons r t ih =>
    intro i j db hj hmin hlt
    cases j with
    | zero =>
      have h0 : env.dbRowOk i = false := by simpa using hj
      simp [insertChunksLoop, h0, insertChunksDb]
    | succ j2 =>
      have h0 : env.dbRowOk i = true := by simpa using hmin 0 (Nat.succ_pos _)
      have hrec := ih (i + 1) j2 { db with chunks := db.chunks ++ [r] }
        (by rw [show i + 1 + j2 = i + (j2 + 1) from by omega]; exact hj)
        (fun k hk => by
          rw [show i + 1 + k = i + (k + 1) from by omega]
          exact hmin (k + 1) (by omega))
        (by simpa using Nat.lt_of_succ_lt_succ hlt)
      simp only [insertChunksLoop, h0, if_true, hrec, List.take_succ_cons,
        insertChunksDb]
      simp

theorem insertChunksLoop_pres (env : IndexEnv) (rows : List ChunkRow) :
    ∀ (i : Nat) (db : Db),
    (insertChunksLoop env i rows db).1.versions = db.versions
      ∧ (insertChunksLoop env i rows db).1.packages = db.packages := by
  induction rows with
  | nil =>
    intro i db
    exact ⟨rfl, rfl⟩
  | cons r t ih =>
    intro i db
    cases h0 : env.dbRowOk i with
    | true =>
      simp only [insertChunksLoop, h0, if_true]
      exact ih (i + 1) _
    | false =>
      constructor <;> simp [insertChunksLoop, h0]

theorem coreRS_download_error (env : IndexEnv) (registry name version vid : Str)
    (s0 : Store) (e : Str) (hd : env.download = .error e) :
    coreRS env registry name version vid s0
      = (.error e, { s0 with db := markVersionFailed s0.db vid e }) := by
  simp [coreRS, hd]

theorem coreRS_empty_ok (env : IndexEnv) (registry name version vid : Str)
    (s0 : Store) (files : List PackageFile) (hd : env.download = .ok files)
    (hni : (env.parseFiles files).isEmpty = true)
    (hmk : env.markIndexedOk = true) :
    coreRS env registry name version vid s0
      = (.ok ⟨vid, 0, files.length, false⟩,
         { s0 with db := markVersionIndexed s0.db vid 0 }) := by
  simp [coreRS, hd, hni, hmk]

theorem coreRS_empty_mark_fail (env : IndexEnv)
    (registry name version vid : Str) (s0 : Store)
    (files : List PackageFile) (hd : env.download = .ok files)
    (hni : (env.parseFiles files).isEmpty = true)
    (hmk : env.markIndexedOk = false) :
    coreRS env registry name version vid s0 = (.error env.markErr, s0) := by
  simp [coreRS, hd, hni, hmk]

theorem coreRS_embed_error (env : IndexEnv) (registry name version vid : Str)
    (s0 : Store) (files : List PackageFile) (e : Str)
    (hd : env.download = .ok files)
    (hni : (env.parseFiles files).isEmpty = false)
    (hemb : env.embed (env.parseFiles files) = .error e) :
    coreRS env registry name version vid s0
      = (.error e, { s0 with db := markVersionFailed s0.db vid e }) := by
  simp [coreRS, hd, hni, hemb]

theorem coreRS_blob_fail (env : IndexEnv) (registry name version vid : Str)
    (s0 : Store) (files : List PackageFile) (es : List (List Rat)) (j : Nat)
    (hd : env.download = .ok files)
    (hni : (env.parseFiles files).isEmpty = false)
    (hemb : env.embed (env.parseFiles files) = .ok es)
    (hj : env.blobOk j = false)
    (hmin : ∀ k, k < j → env.blobOk k = true)
    (hlt : j < ((env.parseFiles files).zip es).length) :
    coreRS env registry name version vid s0
      = (.error env.blobErr,
         { s0 with
             blobs := runBlobs env registry name version
               (((env.parseFiles files).zip es).take j) s0.blobs }) := by
  have hsl := storeLoop_fail env registry name version vid
    ((env.parseFiles files).zip es) 0 j s0.blobs (by simpa using hj)
    (fun k hk => by simpa using hmin k hk) hlt
  simp [coreRS, hd, hni, hemb, hsl]

theorem coreRS_vector_fail (env : IndexEnv) (registry name version vid : Str)
    (s0 : Store) (files : List PackageFile) (es : List (List Rat))
    (hd : env.download = .ok files)
    (hni : (env.parseFiles files).isEmpty = false)
    (hemb : env.embed (env.parseFiles files) = .ok es)
    (hall : ∀ k, k < ((env.parseFiles files).zip es).length →
      env.blobOk k = true)
    (hvi : env.vectorInsertOk = false) :
    coreRS env registry name version vid s0
      = (.error env.vectorErr,
         { db := markVersionFailed s0.db vid env.vectorErr,
           vectors := s0.vectors,
           blobs := runBlobs env registry name version
             ((env.parseFiles files).zip es) s0.blobs }) := by
  have hsl := storeLoop_ok0 env registry name version vid
    ((env.parseFiles files).zip es) s0.blobs hall
  simp [coreRS, hd, hni, hemb, hsl, hvi]

theorem coreRS_db_fail (env : IndexEnv) (registry name version vid : Str)
    (s0 : Store) (files : List PackageFile) (es : List (List Rat)) (j : Nat)
    (hd : env.download = .ok files)
    (hni : (env.parseFiles files).isEmpty = false)
    (hemb : env.embed (env.parseFiles files) = .ok es)
    (hall : ∀ k, k < ((env.parseFiles files).zip es).length →
      env.blobOk k = true)
    (hvi : env.vectorInsertOk = true)
    (hjd : env.dbRowOk j = false)
    (hmind : ∀ k, k < j → env.dbRowOk k = true)
    (hltd : j < (runChunkRows env registry name version vid
      ((env.parseFiles files).zip es)).length) :
    coreRS env registry name version vid s0
      = (.error env.dbErr,
         { db := markVersionFailed
             (insertChunksDb s0.db ((runChunkRows env registry name version vid
               ((env.parseFiles files).zip es)).take j)) vid env.dbErr,
           vectors := vectorInsert s0.vectors (namespaceStr registry name version)
             (runVectorRecords env ((env.parseFiles files).zip es)),
           blobs := runBlobs env registry name version
             ((env.parseFiles files).zip es) s0.blobs }) := by
  have hsl := storeLoop_ok0 env registry name version vid
    ((env.parseFiles files).zip es) s0.blobs hall
  have hil := insertChunksLoop_fail env
    (runChunkRows env registry name version vid ((env.parseFiles files).zip es))
    0 j s0.db (by simpa using hjd) (fun k hk => by simpa using hmind k hk) hltd
  simp [coreRS, hd, hni, hemb, hsl, hvi, hil]

theorem coreRS_mark_fail (env : IndexEnv) (registry name version vid : Str)
    (s0 : Store) (files : List PackageFile) (es : List (List Rat))
    (hd : env.download = .ok files)
    (hni : (env.parseFiles files).isEmpty = false)
    (hemb : env.embed (env.parseFiles files) = .ok es)
    (hall : ∀ k, k < ((env.parseFiles files).zip es).length →
      env.blobOk k = true)
    (hvi : env.vectorInsertOk = true)
    (halld : ∀ k, k < (runChunkRows env registry name version vid
      ((env.parseFiles files).zip es)).length → env.dbRowOk k = true)
    (hmk : env.markIndexedOk = false) :
    coreRS env registry name version vid s0
      = (.error env.markErr,
         { db := insertChunksDb s0.db (runChunkRows env registry name version
             vid ((env.parseFiles files).zip es)),
           vectors := vectorInsert s0.vectors (namespaceStr registry name version)
             (runVectorRecords env ((env.parseFiles files).zip es)),
           blobs := runBlobs env registry name version
             ((env.parseFiles files).zip es) s0.blobs }) := by
  have hsl := storeLoop_ok0 env registry name version vid
    ((env.parseFiles files).zip es) s0.blobs hall
  have hil := insertChunksLoop_ok env
    (runChunkRows env registry name version vid ((env.parseFiles files).zip es))
    0 s0.db (fun k hk => by simpa using halld k hk)
  simp [coreRS, hd, hni, hemb, hsl, hvi, hil, hmk]

theorem coreRS_success (env : IndexEnv) (registry name version vid : Str)
    (s0 : Store) (files : List PackageFile) (es : List (List Rat))
    (hd : env.download = .ok files)
    (hni : (env.parseFiles files).isEmpty = false)
    (hemb : env.embed (env.parseFiles files) = .ok es)
    (hall : ∀ k, k < ((env.parseFiles files).zip es).length →
      env.blobOk k = true)
    (hvi : env.vectorInsertOk = true)
    (halld : ∀ k, k < (runChunkRows env registry name version vid
      ((env.parseFiles files).zip es)).length → env.dbRowOk k = true)
    (hmk : env.markIndexedOk = true) :
    coreRS env registry name version vid s0
      = (.ok ⟨vid, (runChunkRows env registry name version vid
           ((env.parseFiles files).zip es)).length, files.length, false⟩,
         { db := markVersionIndexed
             (insertChunksDb s0.db (runChunkRows env registry name version vid
               ((env.parseFiles files).zip es))) vid
             ((runChunkRows env registry name version vid
               ((env.parseFiles files).zip es)).length : Int),
           vectors := vectorInsert s0.vectors (namespaceStr registry name version)
             (runVectorRecords env ((env.parseFiles files).zip es)),
           blobs := runBlobs env registry name version
             ((env.parseFiles files).zip es) s0.blobs }) := by
  have hsl := storeLoop_ok0 env registry name version vid
    ((env.parseFiles files).zip es) s0.blobs hall
  have hil := insertChunksLoop_ok env
    (runChunkRows env registry name version vid ((env.parseFiles files).zip es))
    0 s0.db (fun k hk => by simpa using halld k hk)
  simp [coreRS, hd, hni, hemb, hsl, hvi, hil, hmk]

theorem findPackage_markIndexed (db : Db) (vid : Str) (k : Int) (r n : Str) :
    findPackage (markVersionIndexed db vid k) r n = findPackage db r n := rfl

theorem findPackage_congr (db1 db2 : Db) (h : db1.packages = db2.packages)
    (r n : Str) : findPackage db1 r n = findPackage db2 r n := by
  unfold findPackage
  rw [h]

theorem findVersionByPackage_congr (db1 db2 : Db)
    (h : db1.versions = db2.versions) (pid v : Str) :
    findVersionByPackage db1 pid v = findVersionByPackage db2 pid v := by
  unfold findVersionByPackage
  rw [h]

end Index

namespace Index

/-- The combined get-or-create of steps 1 and 2 of `index_package`. -/
def gcv (env : IndexEnv) (registry name version : Str) (s : Store) :
    (Str × Bool) × Db :=
  getOrCreateVersion (getOrCreatePackage s.db registry name env.newPackageId).2
    (getOrCreatePackage s.db registry name env.newPackageId).1 version
    env.newVersionId

theorem indexPackage_eq (env : IndexEnv) (registry name version : Str)
    (s : Store) :
    indexPackage env registry name version s =
      if (gcv env registry name version s).1.2 then
        { result := .ok ⟨(gcv env registry name version s).1.1, 0, 0, true⟩,
          store := { s with db := (gcv env registry name version s).2 },
          vid := (gcv env registry name version s).1.1, downloaded := false }
      else
        indexPackageCore env registry name version
          (gcv env registry name version s).1.1
          { s with db := (gcv env registry name version s).2 } := rfl

theorem gcv_chunks (env : IndexEnv) (registry name version : Str) (s : Store) :
    (gcv env registry name version s).2.chunks = s.db.chunks := by
  unfold gcv
  rw [getOrCreateVersion_chunks, getOrCreatePackage_chunks]

theorem core_vid (env : IndexEnv) (registry name version vid : Str)
    (s0 : Store) :
    (indexPackageCore env registry name version vid s0).vid = vid := rfl

end Index

/-- C1 counterexample: a run whose vector-store insert fails leaves the blob
written for its chunk in the blob store, so a store does retain partial state
for the Version after a post-download failure. -/
theorem C1_counterexample :
    ((Index.indexPackage
        { download := .ok [⟨"f.js".toList, ['x']⟩]
          parseFiles := fun _ =>
            [⟨"function".toList, "public".toList, ['f'], none, ['x'], none,
              "f.js".toList, 1, 2, ['x']⟩]
          embed := fun _ => .ok [[1]]
          blobOk := fun _ => true
          blobErr := "blob".toList
          vectorInsertOk := false
          vectorErr := "vec".toList
          dbRowOk := fun _ => true
          dbErr := "db".toList
          markIndexedOk := true
          markErr := "mark".toList
          hash := fun _ => ['h']
          newPackageId := "p1".toList
          newVersionId := "v1".toList
          chunkIds := fun _ => "c1".toList }
        "npm".toList ['a'] ['1'] ⟨⟨[], [], []⟩, [], []⟩).result.isOk = false)
    ∧ "npm/a/1/h".toList
        ∈ (Index.indexPackage
            { download := .ok [⟨"f.js".toList, ['x']⟩]
              parseFiles := fun _ =>
                [⟨"function".toList, "public".toList, ['f'], none, ['x'], none,
                  "f.js".toList, 1, 2, ['x']⟩]
              embed := fun _ => .ok [[1]]
              blobOk := fun _ => true
              blobErr := "blob".toList
              vectorInsertOk := false
              vectorErr := "vec".toList
              dbRowOk := fun _ => true
              dbErr := "db".toList
              markIndexedOk := true
              markErr := "mark".toList
              hash := fun _ => ['h']
              newPackageId := "p1".toList
              newVersionId := "v1".toList
              chunkIds := fun _ => "c1".toList }
            "npm".toList ['a'] ['1'] ⟨⟨[], [], []⟩, [], []⟩).store.blobs := by
  constructor
  · rfl
  · decide

/-- C1 (amended): what a run of `index_package` that fails after the download
step leaves behind depends on which operation failed.  An embedding failure
marks the Version `failed` and leaves all three stores untouched.  A
`storage.put` failure aborts the run with the blobs of the earlier loop
iterations in place and does NOT mark the Version failed — the metadata DB
is exactly what the get-or-create step left.  A vector-insert failure marks
the Version failed with the run's blobs remaining.  A chunk-row INSERT
failure marks the Version failed but retains the prefix of the run's chunk
rows inserted before the failing row, next to the run's blobs and vector
entries.  A failure of the final `mark_version_indexed` UPDATE aborts the
run with every chunk row, vector entry and blob in place and the Version
NOT marked failed.  (When the parse yields no chunks, the only possible
post-download failure is that final UPDATE, and it too leaves no failed
mark.) -/
theorem C1_failedRunState (env : Index.IndexEnv) (registry name version : Str)
    (s : Index.Store) (files : List Index.PackageFile) (e : Str)
    (hd : env.download = .ok files)
    (he : (Index.indexPackage env registry name version s).result = .error e) :
    ((env.parseFiles files).isEmpty = true →
      (Index.indexPackage env registry name version s).result
          = .error env.markErr
      ∧ (Index.indexPackage env registry name version s).store.db
          = (Index.gcv env registry name version s).2
      ∧ (Index.indexPackage env registry name version s).store.vectors
          = s.vectors
      ∧ (Index.indexPackage env registry name version s).store.blobs = s.blobs)
    ∧ ((env.parseFiles files).isEmpty = false →
      (∃ e2, env.embed (env.parseFiles files) = .error e2) →
      (Index.indexPackage env registry name version s).store.db.chunks
          = s.db.chunks
      ∧ (∃ row ∈ (Index.indexPackage env registry name version
            s).store.db.versions,
          row.id = (Index.indexPackage env registry name version s).vid
            ∧ row.status = "failed".toList)
      ∧ (Index.indexPackage env registry name version s).store.vectors
          = s.vectors
      ∧ (Index.indexPackage env registry name version s).store.blobs = s.blobs)
    ∧ (∀ es j, (env.parseFiles files).isEmpty = false →
      env.embed (env.parseFiles files) = .ok es →
      env.blobOk j = false →
      (∀ k, k < j → env.blobOk k = true) →
      j < ((env.parseFiles files).zip es).length →
      (Index.indexPackage env registry name version s).result
          = .error env.blobErr
      ∧ (Index.indexPackage env registry name version s).store.db
          = (Index.gcv env registry name version s).2
      ∧ (Index.indexPackage env registry name version s).store.vectors
          = s.vectors
      ∧ (Index.indexPackage env registry name version s).store.blobs
          = Index.runBlobs env registry name version
              (((env.parseFiles files).zip es).take j) s.blobs)
    ∧ (∀ es, (env.parseFiles files).isEmpty = false →
      env.embed (env.parseFiles files) = .ok es →
      (∀ k, k < ((env.parseFiles files).zip es).length →
        env.blobOk k = true) →
      env.vectorInsertOk = false →
      (Index.indexPackage env registry name version s).store.db.chunks
          = s.db.chunks
      ∧ (∃ row ∈ (Index.indexPackage env registry name version
            s).store.db.versions,
          row.id = (Index.indexPackage env registry name version s).vid
            ∧ row.status = "failed".toList)
      ∧ (Index.indexPackage env registry name version s).store.vectors
          = s.vectors
      ∧ (Index.indexPackage env registry name version s).store.blobs
          = Index.runBlobs env registry name version
              ((env.parseFiles files).zip es) s.blobs)
    ∧ (∀ es j, (env.parseFiles files).isEmpty = false →
      env.embed (env.parseFiles files) = .ok es →
      (∀ k, k < ((env.parseFiles files).zip es).length →
        env.blobOk k = true) →
      env.vectorInsertOk = true →
      env.dbRowOk j = false →
      (∀ k, k < j → env.dbRowOk k = true) →
      j < (Index.runChunkRows env registry name version
        (Index.gcv env registry name version s).1.1
        ((env.parseFiles files).zip es)).length →
      (∃ row ∈ (Index.indexPackage env registry name version
            s).store.db.versions,
          row.id = (Index.indexPackage env registry name version s).vid
            ∧ row.status = "failed".toList)
      ∧ (Index.indexPackage env registry name version s).store.db.chunks
          = s.db.chunks
            ++ (Index.runChunkRows env registry name version
              (Index.gcv env registry name version s).1.1
              ((env.parseFiles files).zip es)).take j
      ∧ (Index.indexPackage env registry name version s).store.vectors
          = Index.vectorInsert s.vectors
              (Index.namespaceStr registry name version)
              (Index.runVectorRecords env ((env.parseFiles files).zip es))
      ∧ (Index.indexPackage env registry name version s).store.blobs
          = Index.runBlobs env registry name version
              ((env.parseFiles files).zip es) s.blobs)
    ∧ (∀ es, (env.parseFiles files).isEmpty = false →
      env.embed (env.parseFiles files) = .ok es →
      (∀ k, k < ((env.parseFiles files).zip es).length →
        env.blobOk k = true) →
      env.vectorInsertOk = true →
      (∀ k, k < (Index.runChunkRows env registry name version
        (Index.gcv env registry name version s).1.1
        ((env.parseFiles files).zip es)).length → env.dbRowOk k = true) →
      env.markIndexedOk = false →
      (Index.indexPackage env registry name version s).result
          = .error env.markErr
      ∧ (Index.indexPackage env registry name version s).store.db.versions
          = (Index.gcv env registry name version s).2.versions
      ∧ (Index.indexPackage env registry name version s).store.db.chunks
          = s.db.chunks
            ++ Index.runChunkRows env registry name version
              (Index.gcv env registry name version s).1.1
              ((env.parseFiles files).zip es)
      ∧ (Index.indexPackage env registry name version s).store.vectors
          = Index.vectorInsert s.vectors
              (Index.namespaceStr registry name version)
              (Index.runVectorRecords env ((env.parseFiles files).zip es))
      ∧ (Index.indexPackage env registry name version s).store.blobs
          = Index.runBlobs env registry name version
              ((env.parseFiles files).zip es) s.blobs) := by
  cases hskip : (Index.gcv env registry name version s).1.2 with
  | true =>
    rw [Index.indexPackage_eq, hskip, if_pos rfl] at he
    simp at he
  | false =>
    have hout : Index.indexPackage env registry name version s
        = Index.indexPackageCore env registry name version
            (Index.gcv env registry name version s).1.1
            { s with db := (Index.gcv env registry name version s).2 } := by
      rw [Index.indexPackage_eq, hskip, if_neg Bool.false_ne_true]
    rw [hout] at he ⊢
    simp only [Index.indexPackageCore] at he ⊢
    have hrow : ∃ row ∈
        ({ s with db := (Index.gcv env registry name version s).2 } :
          Index.Store).db.versions,
        row.id = (Index.gcv env registry name version s).1.1 :=
      Index.getOrCreateVersion_exists_row _ _ _ _
    have hchunks := Index.gcv_chunks env registry name version s
    refine ⟨?_, ?_, ?_, ?_, ?_, ?_⟩
    · intro hni
      cases hmk : env.markIndexedOk with
      | true =>
        have hrs := Index.coreRS_empty_ok env registry name version
          (Index.gcv env registry name version s).1.1
          { s with db := (Index.gcv env registry name version s).2 }
          files hd hni hmk
        rw [hrs] at he
        simp at he
      | false =>
        have hrs := Index.coreRS_empty_mark_fail env registry name version
          (Index.gcv env registry name version s).1.1
          { s with db := (Index.gcv env registry name version s).2 }
          files hd hni hmk
        rw [hrs]
        exact ⟨rfl, rfl, rfl, rfl⟩
    · rintro hni ⟨e2, hemb⟩
      have hrs := Index.coreRS_embed_error env registry name version
        (Index.gcv env registry name version s).1.1
        { s with db := (Index.gcv env registry name version s).2 }
        files e2 hd hni hemb
      rw [hrs]
      exact ⟨hchunks, Index.exists_failed_row _ _ _ hrow, rfl, rfl⟩
    · intro es j hni hemb hj hmin hlt
      have hrs := Index.coreRS_blob_fail env registry name version
        (Index.gcv env registry name version s).1.1
        { s with db := (Index.gcv env registry name version s).2 }
        files es j hd hni hemb hj hmin hlt
      rw [hrs]
      exact ⟨rfl, rfl, rfl, rfl⟩
    · intro es hni hemb hall hvi
      have hrs := Index.coreRS_vector_fail env registry name version
        (Index.gcv env registry name version s).1.1
        { s with db := (Index.gcv env registry name version s).2 }
        files es hd hni hemb hall hvi
      rw [hrs]
      exact ⟨hchunks, Index.exists_failed_row _ _ _ hrow, rfl, rfl⟩
    · intro es j hni hemb hall hvi hjd hmind hltd
      have hrs := Index.coreRS_db_fail env registry name version
        (Index.gcv env registry name version s).1.1
        { s with db := (Index.gcv env registry name version s).2 }
        files es j hd hni hemb hall hvi hjd hmind hltd
      rw [hrs]
      refine ⟨Index.exists_failed_row _ _ _ hrow, ?_, rfl, rfl⟩
      exact congrArg (fun c => c ++ (Index.runChunkRows env registry name
        version (Index.gcv env registry name version s).1.1
        ((env.parseFiles files).zip es)).take j) hchunks
    · intro es hni hemb hall hvi halld hmk
      have hrs := Index.coreRS_mark_fail env registry name version
        (Index.gcv env registry name version s).1.1
        { s with db := (Index.gcv env registry name version s).2 }
        files es hd hni hemb hall hvi halld hmk
      rw [hrs]
      refine ⟨rfl, rfl, ?_, rfl, rfl⟩
      exact congrArg (fun c => c ++ Index.runChunkRows env registry name
        version (Index.gcv env registry name version s).1.1
        ((env.parseFiles files).zip es)) hchunks

/-- Concrete parsed chunk for the C1 witness run. -/
def c1wChunk : Index.ParsedChunk :=
  ⟨"function".toList, "public".toList, ['f'], none, ['x'], none,
    "f.js".toList, 1, 2, ['x']⟩

/-- Concrete environment for the C1 witness run: the embedding call fails. -/
def c1wEnv : Index.IndexEnv :=
  { download := .ok [⟨"f.js".toList, ['x']⟩]
    parseFiles := fun _ => [c1wChunk]
    embed := fun _ => .error "boom".toList
    blobOk := fun _ => true
    blobErr := "blob".toList
    vectorInsertOk := true
    vectorErr := "vec".toList
    dbRowOk := fun _ => true
    dbErr := "db".toList
    markIndexedOk := true
    markErr := "mark".toList
    hash := fun _ => ['h']
    newPackageId := "p1".toList
    newVersionId := "v1".toList
    chunkIds := fun _ => "c1".toList }

/-- Empty store for the C1 witness run. -/
def c1wStore : Index.Store := ⟨⟨[], [], []⟩, [], []⟩

/-- C1 witness: the embedding-failure clause of the amended theorem applied
to a concrete run whose embedding call fails. -/
theorem C1_failedRunState_witness :
    (Index.indexPackage c1wEnv "npm".toList ['a'] ['1'] c1wStore).store.db.chunks
        = c1wStore.db.chunks
    ∧ (∃ row ∈ (Index.indexPackage c1wEnv "npm".toList ['a'] ['1']
          c1wStore).store.db.versions,
        row.id = (Index.indexPackage c1wEnv "npm".toList ['a'] ['1'] c1wStore).vid
          ∧ row.status = "failed".toList)
    ∧ (Index.indexPackage c1wEnv "npm".toList ['a'] ['1'] c1wStore).store.vectors
        = c1wStore.vectors
    ∧ (Index.indexPackage c1wEnv "npm".toList ['a'] ['1'] c1wStore).store.blobs
        = c1wStore.blobs :=
  (C1_failedRunState c1wEnv "npm".toList ['a'] ['1'] c1wStore
      [⟨"f.js".toList, ['x']⟩] "boom".toList rfl rfl).2.1 rfl
    ⟨"boom".toList, rfl⟩

namespace Index

theorem findVersionByPackage_mark (db : Db) (pid v vid : Str) (k : Int) :
    findVersionByPackage (markVersionIndexed db vid k) pid v
      = (findVersionByPackage db pid v).map (markIndexedRow vid k) := by
  unfold findVersionByPackage markVersionIndexed
  rw [List.find?_map]
  have hpf : ((fun (r : VersionRow) => r.packageId == pid && r.version == v)
      ∘ markIndexedRow vid k)
      = fun (r : VersionRow) => r.packageId == pid && r.version == v := by
    funext x
    unfold markIndexedRow
    by_cases hx : x.id = vid
    · simp [hx]
    · simp [hx]
  rw [hpf]

theorem core_ok_find (env : IndexEnv) (registry name version vid : Str)
    (s0 : Store) (res : IndexResult)
    (hok : (indexPackageCore env registry name version vid s0).result = .ok res)
    (r n pid v : Str) :
    ∃ k, findPackage (indexPackageCore env registry name version vid s0).store.db r n
        = findPackage s0.db r n
      ∧ findVersionByPackage
          (indexPackageCore env registry name version vid s0).store.db pid v
        = (findVersionByPackage s0.db pid v).map (markIndexedRow vid k) := by
  have hok2 : (coreRS env registry name version vid s0).1 = .ok res := hok
  show ∃ k, findPackage (coreRS env registry name version vid s0).2.db r n
      = findPackage s0.db r n
    ∧ findVersionByPackage (coreRS env registry name version vid s0).2.db pid v
      = (findVersionByPackage s0.db pid v).map (markIndexedRow vid k)
  cases hd : env.download with
  | error e =>
    rw [coreRS_download_error env registry name version vid s0 e hd] at hok2
    cases hok2
  | ok files =>
    cases hni : (env.parseFiles files).isEmpty with
    | true =>
      cases hmk : env.markIndexedOk with
      | false =>
        rw [coreRS_empty_mark_fail env registry name version vid s0 files hd hni
          hmk] at hok2
        cases hok2
      | true =>
        rw [coreRS_empty_ok env registry name version vid s0 files hd hni hmk]
        exact ⟨0, rfl, findVersionByPackage_mark _ _ _ _ _⟩
    | false =>
      cases hemb : env.embed (env.parseFiles files) with
      | error e =>
        rw [coreRS_embed_error env registry name version vid s0 files e hd hni
          hemb] at hok2
        cases hok2
      | ok es =>
        rcases hsl : storeLoop env registry name version vid 0
          ((env.parseFiles files).zip es) s0.blobs with ⟨bs2, res2⟩
        cases res2 with
        | error e2 =>
          have hrs : (coreRS env registry name version vid s0).1 = .error e2 := by
            simp [coreRS, hd, hni, hemb, hsl]
          rw [hrs] at hok2
          cases hok2
        | ok recs =>
          rcases recs with ⟨vrs, rws⟩
          cases hvi : env.vectorInsertOk with
          | false =>
            have hrs : (coreRS env registry name version vid s0).1
                = .error env.vectorErr := by
              simp [coreRS, hd, hni, hemb, hsl, hvi]
            rw [hrs] at hok2
            cases hok2
          | true =>
            rcases hil : insertChunksLoop env 0 rws s0.db with ⟨db2, res3⟩
            cases res3 with
            | error e3 =>
              have hrs : (coreRS env registry name version vid s0).1
                  = .error e3 := by
                simp [coreRS, hd, hni, hemb, hsl, hvi, hil]
              rw [hrs] at hok2
              cases hok2
            | ok u =>
              cases hmk : env.markIndexedOk with
              | false =>
                have hrs : (coreRS env registry name version vid s0).1
                    = .error env.markErr := by
                  simp [coreRS, hd, hni, hemb, hsl, hvi, hil, hmk]
                rw [hrs] at hok2
                cases hok2
              | true =>
                have hrs : coreRS env registry name version vid s0
                    = (.ok ⟨vid, rws.length, files.length, false⟩,
                       { db := markVersionIndexed db2 vid (rws.length : Int),
                         vectors := vectorInsert s0.vectors
                           (namespaceStr registry name version) vrs,
                         blobs := bs2 }) := by
                  simp [coreRS, hd, hni, hemb, hsl, hvi, hil, hmk]
                have hpres := insertChunksLoop_pres env rws 0 s0.db
                rw [hil] at hpres
                rw [hrs]
                refine ⟨(rws.length : Int), ?_, ?_⟩
                · rw [show ((.ok ⟨vid, rws.length, files.length, false⟩,
                      { db := markVersionIndexed db2 vid (rws.length : Int),
                        vectors := vectorInsert s0.vectors
                          (namespaceStr registry name version) vrs,
                        blobs := bs2 }) :
                      Except Str IndexResult × Store).2.db
                      = markVersionIndexed db2 vid (rws.length : Int) from rfl]
                  rw [findPackage_markIndexed]
                  exact findPackage_congr db2 s0.db hpres.2 r n
                · rw [show ((.ok ⟨vid, rws.length, files.length, false⟩,
                      { db := markVersionIndexed db2 vid (rws.length : Int),
                        vectors := vectorInsert s0.vectors
                          (namespaceStr registry name version) vrs,
                        blobs := bs2 }) :
                      Except Str IndexResult × Store).2.db
                      = markVersionIndexed db2 vid (rws.length : Int) from rfl]
                  rw [findVersionByPackage_mark]
                  rw [findVersionByPackage_congr db2 s0.db hpres.1 pid v]

theorem gcv_finds (env : IndexEnv) (registry name version : Str) (s : Store)
    (hfresh : ∀ vr ∈ s.db.versions, vr.packageId ≠ env.newPackageId) :
    ∃ p' row',
      findPackage (gcv env registry name version s).2 registry name = some p'
      ∧ findVersionByPackage (gcv env registry name version s).2 p'.id version
          = some row'
      ∧ row'.id = (gcv env registry name version s).1.1
      ∧ shouldSkipStatus (parseStatusColumn row'.status)
          = (gcv env registry name version s).1.2 := by
  cases hp : findPackage s.db registry name with
  | some p =>
    have hpkg : getOrCreatePackage s.db registry name env.newPackageId
        = (p.id, s.db) := by
      unfold getOrCreatePackage
      rw [hp]
    cases hv : findVersionByPackage s.db p.id version with
    | some row =>
      have hgcv : gcv env registry name version s
          = ((row.id, shouldSkipStatus (parseStatusColumn row.status)), s.db) := by
        unfold gcv
        rw [hpkg]
        show getOrCreateVersion s.db p.id version env.newVersionId = _
        unfold getOrCreateVersion
        rw [hv]
      rw [hgcv]
      exact ⟨p, row, hp, hv, rfl, rfl⟩
    | none =>
      have hgcv : gcv env registry name version s
          = ((env.newVersionId, false),
             { s.db with versions := s.db.versions
                ++ [⟨env.newVersionId, p.id, version, "pending".toList, none, 0⟩] }) := by
        unfold gcv
        rw [hpkg]
        show getOrCreateVersion s.db p.id version env.newVersionId = _
        unfold getOrCreateVersion
        rw [hv]
      rw [hgcv]
      refine ⟨p, ⟨env.newVersionId, p.id, version, "pending".toList, none, 0⟩,
        hp, ?_, rfl, rfl⟩
      show List.find? _ (s.db.versions ++ _) = _
      rw [List.find?_append, show List.find?
          (fun r => r.packageId == p.id && r.version == version) s.db.versions
          = none from hv]
      simp
  | none =>
    have hpkg : getOrCreatePackage s.db registry name env.newPackageId
        = (env.newPackageId,
           { s.db with packages := s.db.packages
              ++ [⟨env.newPackageId, registry, name, none⟩] }) := by
      unfold getOrCreatePackage
      rw [hp]
    have hvnone : List.find?
        (fun r => r.packageId == env.newPackageId && r.version == version)
        s.db.versions = none := by
      rw [List.find?_eq_none]
      intro x hx
      simp only [Bool.and_eq_true, beq_iff_eq, not_and]
      intro hxp
      exact absurd hxp (hfresh x hx)
    have hgcv : gcv env registry name version s
        = ((env.newVersionId, false),
           { s.db with
              packages := s.db.packages
                ++ [⟨env.newPackageId, registry, name, none⟩],
              versions := s.db.versions
                ++ [⟨env.newVersionId, env.newPackageId, version,
                  "pending".toList, none, 0⟩] }) := by
      unfold gcv
      rw [hpkg]
      show getOrCreateVersion _ env.newPackageId version env.newVersionId = _
      unfold getOrCreateVersion
      rw [show findVersionByPackage
          { s.db with packages := s.db.packages
              ++ [⟨env.newPackageId, registry, name, none⟩] }
          env.newPackageId version = none from hvnone]
    rw [hgcv]
    refine ⟨⟨env.newPackageId, registry, name, none⟩,
      ⟨env.newVersionId, env.newPackageId, version, "pending".toList, none, 0⟩,
      ?_, ?_, rfl, rfl⟩
    · show List.find? _ (s.db.packages ++ _) = _
      rw [List.find?_append, show List.find?
          (fun p => p.registry == registry && p.name == name) s.db.packages
          = none from hp]
      simp
    · show List.find? _ (s.db.versions ++ _) = _
      rw [List.find?_append, hvnone]
      simp

end Index

namespace Index

theorem markIndexedRow_id (vid : Str) (k : Int) (r : VersionRow) :
    (markIndexedRow vid k r).id = r.id := by
  unfold markIndexedRow
  split <;> rfl

theorem markIndexedRow_status_self (vid : Str) (k : Int) (r : VersionRow)
    (h : r.id = vid) : (markIndexedRow vid k r).status = "indexed".toList := by
  unfold markIndexedRow
  rw [if_pos (by simp [h])]

theorem indexPackage_skipForm (env : IndexEnv) (registry name version : Str)
    (s : Store) (p : PackageRow) (row : VersionRow)
    (hp : findPackage s.db registry name = some p)
    (hv : findVersionByPackage s.db p.id version = some row)
    (hsk : shouldSkipStatus (parseStatusColumn row.status) = true) :
    indexPackage env registry name version s =
      { result := .ok ⟨row.id, 0, 0, true⟩, store := s, vid := row.id,
        downloaded := false } := by
  have hpkg : getOrCreatePackage s.db registry name env.newPackageId
      = (p.id, s.db) := by
    unfold getOrCreatePackage
    rw [hp]
  have hgcv : gcv env registry name version s
      = ((row.id, shouldSkipStatus (parseStatusColumn row.status)), s.db) := by
    unfold gcv
    rw [hpkg]
    show getOrCreateVersion s.db p.id version env.newVersionId = _
    unfold getOrCreateVersion
    rw [hv]
  rw [hsk] at hgcv
  rw [indexPackage_eq, hgcv, if_pos rfl]

end Index

/-- C4: a Version whose row is already `Indexed` or `Skipped` makes
`index_package` return `skipped = true` with zero counts, without downloading
or writing to any store; consequently a second run with the same arguments
after a successful first run reports `skipped = true` and leaves the whole
store — the chunk count included — unchanged. -/
theorem C4_skipIdempotent :
    (∀ (env : Index.IndexEnv) (registry name version : Str) (s : Index.Store)
        (p : Index.PackageRow) (row : Index.VersionRow),
        Index.findPackage s.db registry name = some p →
        Index.findVersionByPackage s.db p.id version = some row →
        (Index.parseStatusColumn row.status = .indexed
          ∨ Index.parseStatusColumn row.status = .skipped) →
        Index.indexPackage env registry name version s =
          { result := .ok ⟨row.id, 0, 0, true⟩, store := s, vid := row.id,
            downloaded := false })
    ∧ (∀ (env1 env2 : Index.IndexEnv) (registry name version : Str)
        (s : Index.Store) (res : Index.IndexResult),
        (∀ vr ∈ s.db.versions, vr.packageId ≠ env1.newPackageId) →
        (Index.indexPackage env1 registry name version s).result = .ok res →
        Index.indexPackage env2 registry name version
            (Index.indexPackage env1 registry name version s).store =
          { result := .ok ⟨(Index.indexPackage env1 registry name version s).vid,
              0, 0, true⟩,
            store := (Index.indexPackage env1 registry name version s).store,
            vid := (Index.indexPackage env1 registry name version s).vid,
            downloaded := false }) := by
  constructor
  · intro env registry name version s p row hp hv hst
    refine Index.indexPackage_skipForm env registry name version s p row hp hv ?_
    rcases hst with h | h <;> rw [h] <;> rfl
  · intro env1 env2 registry name version s res hfresh hok
    obtain ⟨p0, row0, hp0, hv0, hid0, hsk0⟩ :=
      Index.gcv_finds env1 registry name version s hfresh
    cases hskip : (Index.gcv env1 registry name version s).1.2 with
    | true =>
      have hout : Index.indexPackage env1 registry name version s =
          { result := .ok ⟨(Index.gcv env1 registry name version s).1.1, 0, 0,
              true⟩,
            store := { s with db := (Index.gcv env1 registry name version s).2 },
            vid := (Index.gcv env1 registry name version s).1.1,
            downloaded := false } := by
        rw [Index.indexPackage_eq, hskip, if_pos rfl]
      rw [hout]
      have hskf := Index.indexPackage_skipForm env2 registry name version
        { s with db := (Index.gcv env1 registry name version s).2 } p0 row0 hp0
        hv0 (by rw [hsk0, hskip])
      rw [hskf, hid0]
    | false =>
      have hout : Index.indexPackage env1 registry name version s =
          Index.indexPackageCore env1 registry name version
            (Index.gcv env1 registry name version s).1.1
            { s with db := (Index.gcv env1 registry name version s).2 } := by
        rw [Index.indexPackage_eq, hskip, if_neg Bool.false_ne_true]
      rw [hout] at hok ⊢
      obtain ⟨k, hfp, hfv⟩ := Index.core_ok_find env1 registry name version
        (Index.gcv env1 registry name version s).1.1
        { s with db := (Index.gcv env1 registry name version s).2 } res hok
        registry name p0.id version
      have hfp' : Index.findPackage
          (Index.indexPackageCore env1 registry name version
            (Index.gcv env1 registry name version s).1.1
            { s with db := (Index.gcv env1 registry name version s).2 }).store.db
          registry name = some p0 := by
        rw [hfp]
        exact hp0
      have hfv' : Index.findVersionByPackage
          (Index.indexPackageCore env1 registry name version
            (Index.gcv env1 registry name version s).1.1
            { s with db := (Index.gcv env1 registry name version s).2 }).store.db
          p0.id version
          = some (Index.markIndexedRow
              (Index.gcv env1 registry name version s).1.1 k row0) := by
        rw [hfv]
        rw [show Index.findVersionByPackage
            ({ s with db := (Index.gcv env1 registry name version s).2 } :
              Index.Store).db p0.id version = some row0 from hv0]
        rfl
      have hsk1 : Index.shouldSkipStatus (Index.parseStatusColumn
          (Index.markIndexedRow (Index.gcv env1 registry name version s).1.1 k
            row0).status) = true := by
        rw [Index.markIndexedRow_status_self _ _ _ hid0]
        rfl
      have hskf := Index.indexPackage_skipForm env2 registry name version
        (Index.indexPackageCore env1 registry name version
          (Index.gcv env1 registry name version s).1.1
          { s with db := (Index.gcv env1 registry name version s).2 }).store
        p0 _ hfp' hfv' hsk1
      rw [hskf, Index.markIndexedRow_id, hid0, Index.core_vid]

/-- Concrete store for the C4 witness: one version already indexed. -/
def c4wStore : Index.Store := { db := c5db, vectors := [], blobs := [] }

/-- C4 witness: the skip half applied to a store whose version row is already
`indexed`. -/
theorem C4_skipIdempotent_witness :
    Index.indexPackage c1wEnv "npm".toList ['a'] ['1'] c4wStore =
      { result := .ok ⟨"v1".toList, 0, 0, true⟩, store := c4wStore,
        vid := "v1".toList, downloaded := false } :=
  C4_skipIdempotent.1 c1wEnv "npm".toList ['a'] ['1'] c4wStore
    ⟨"p1".toList, "npm".toList, ['a'], none⟩
    ⟨"v1".toList, "p1".toList, ['1'], "indexed".toList, none, 3⟩
    rfl rfl (Or.inl rfl)

namespace Vect

/-- A search hit (src/local/models.rs `VectorSearchHit`), its `f32` distance
modelled as a rational. -/
structure Hit where
  chunkId : Str
  distance : Rat
deriving DecidableEq

/-- The comparator of the `sort_by` call in `search` and `search_multi`:
ascending by distance (`partial_cmp` on distances). -/
def hitLe (a b : Hit) : Bool :=
  decide (a.distance ≤ b.distance)

/-- `VectorStore::search_multi` from src/local/vector.rs over an abstract
per-namespace `search`: extend `all_hits` with the hits of each namespace in
order, stable-sort ascending by distance (Rust `sort_by` is a stable merge
sort), and truncate to the limit. -/
def searchMulti (search : Str → List Rat → Nat → List Hit)
    (namespaces : List Str) (queryVector : List Rat) (limit : Nat) :
    List Hit :=
  ((namespaces.foldl (fun acc ns => acc ++ search ns queryVector limit)
    []).mergeSort hitLe).take limit

theorem hitLe_trans (a b c : Hit) (h1 : hitLe a b = true)
    (h2 : hitLe b c = true) : hitLe a c = true := by
  simp only [hitLe, decide_eq_true_eq] at *
  exact le_trans h1 h2

theorem hitLe_total (a b : Hit) : (hitLe a b || hitLe b a) = true := by
  simp only [hitLe, Bool.or_eq_true, decide_eq_true_eq]
  exact le_total a.distance b.distance

theorem foldl_append_hits (f : Str → List Hit) (l : List Str)
    (acc : List Hit) :
    l.foldl (fun acc ns => acc ++ f ns) acc = acc ++ l.flatMap f := by
  induction l generalizing acc with
  | nil => simp
  | cons ns t ih => simp [ih, List.append_assoc]

end Vect

/-- C7: `search_multi` returns exactly the per-namespace search results,
concatenated in namespace order, sorted ascending by distance with a stable
sort, and truncated to the first `k`; two hits of equal distance keep their
relative order from the concatenation. -/
theorem C7_searchMultiMerge (search : Str → List Rat → Nat → List Vect.Hit)
    (namespaces : List Str) (q : List Rat) (k : Nat) :
    Vect.searchMulti search namespaces q k
        = ((namespaces.flatMap fun ns => search ns q k).mergeSort
            Vect.hitLe).take k
    ∧ List.Pairwise (fun a b : Vect.Hit => a.distance ≤ b.distance)
        (Vect.searchMulti search namespaces q k)
    ∧ ((namespaces.flatMap fun ns => search ns q k).mergeSort
        Vect.hitLe).Perm (namespaces.flatMap fun ns => search ns q k)
    ∧ (∀ a b : Vect.Hit,
        [a, b].Sublist (namespaces.flatMap fun ns => search ns q k) →
        a.distance = b.distance →
        [a, b].Sublist ((namespaces.flatMap fun ns => search ns q k).mergeSort
          Vect.hitLe)) := by
  have heq : Vect.searchMulti search namespaces q k
      = ((namespaces.flatMap fun ns => search ns q k).mergeSort
          Vect.hitLe).take k := by
    unfold Vect.searchMulti
    rw [Vect.foldl_append_hits (fun ns => search ns q k) namespaces []]
    rfl
  refine ⟨heq, ?_, List.mergeSort_perm _ _, ?_⟩
  · rw [heq]
    have hs := List.sorted_mergeSort Vect.hitLe_trans Vect.hitLe_total
      (namespaces.flatMap fun ns => search ns q k)
    have := hs.sublist (List.take_sublist k _)
    exact this.imp fun h => by
      simpa [Vect.hitLe, decide_eq_true_eq] using h
  · intro a b hab hdist
    refine List.sublist_mergeSort Vect.hitLe_trans Vect.hitLe_total ?_ hab
    refine List.pairwise_pair.mpr ?_
    simp [Vect.hitLe, hdist]

namespace Vect

/-- The escape token `sanitize_table_name` substitutes for `/`. -/
def sTok : Str := ['-', '-', 'S', '-', '-']

/-- The escape token `sanitize_table_name` substitutes for `@`. -/
def aTok : Str := ['-', '-', 'A', '-', '-']

/-- Rust `str::replace` with a one-character pattern. -/
def replaceChar (c : Char) (rep : Str) (s : Str) : Str :=
  s.flatMap fun x => if x = c then rep else [x]

/-- `sanitize_table_name` from src/local/vector.rs: replace `/` with the S
token, then `@` with the A token. -/
def sanitizeTableName (ns : Str) : Str :=
  replaceChar '@' aTok (replaceChar '/' sTok ns)

/-- Rust `str::replace` with a string pattern: leftmost non-overlapping
matches, one pass.  Recursion is fuelled by the input length (every step
consumes at least one input character, so that much fuel always suffices);
the never-occurring empty pattern returns the input unchanged. -/
def replaceFuel (pat rep : Str) : Nat → Str → Str
  | 0, s => s
  | fuel + 1, s =>
    if pat ≠ [] ∧ pat <+: s then
      rep ++ replaceFuel pat rep fuel (s.drop pat.length)
    else
      match s with
      | [] => []
      | c :: t => c :: replaceFuel pat rep fuel t

/-- Rust `str::replace` with a string pattern. -/
def replaceStr (pat rep s : Str) : Str :=
  replaceFuel pat rep s.length s

/-- `unsanitize_table_name` from src/local/vector.rs: replace the S token
with `/`, then the A token with `@`. -/
def unsanitizeTableName (t : Str) : Str :=
  replaceStr aTok ['@'] (replaceStr sTok ['/'] t)

/-- Per-character image of `sanitize_table_name`. -/
def escSA (c : Char) : Str :=
  if c = '/' then sTok else if c = '@' then aTok else [c]

/-- The sanitized form, computed character by character. -/
def encSA (l : Str) : Str :=
  l.flatMap escSA

/-- Per-character image after the S token has been decoded back to `/`. -/
def escA (c : Char) : Str :=
  if c = '@' then aTok else [c]

/-- The intermediate form with only `@` still escaped. -/
def encA (l : Str) : Str :=
  l.flatMap escA

/-- A character whose escape (or literal form) touches `-` runs: the escape
tokens border on these. -/
def riskChar (c : Char) : Bool :=
  c = '-' || c = '/' || c = '@'

/-- The letters the escape tokens carry. -/
def escLetter (c : Char) : Bool :=
  c = 'S' || c = 'A'

/-- A safe adjacent pair: no escape letter next to a hyphen, slash or at. -/
def okPair (a b : Char) : Bool :=
  !(riskChar a && escLetter b) && !(escLetter a && riskChar b)

/-- Namespaces in which no `S` or `A` sits next to `-`, `/` or `@`: for
these the escape tokens cannot be forged and the sanitization inverts. -/
def okNs : Str → Bool
  | [] => true
  | [_] => true
  | a :: b :: t => okPair a b && okNs (b :: t)

theorem okNs_tail (a : Char) (t : Str) (h : okNs (a :: t) = true) :
    okNs t = true := by
  cases t with
  | nil => rfl
  | cons b t' =>
    simp only [okNs, Bool.and_eq_true] at h
    exact h.2

theorem okPair_right_safe (a b : Char) (h : okPair a b = true)
    (ha : riskChar a = true) : escLetter b = false := by
  simp only [okPair, Bool.and_eq_true] at h
  have h1 := h.1
  rw [ha] at h1
  simpa using h1

theorem head_safe (x : Char) (t : Str) (hok : okNs (x :: t) = true)
    (hx : riskChar x = true) : ∀ c, t.head? = some c → escLetter c = false := by
  intro c hc
  cases t with
  | nil => cases hc
  | cons b t' =>
    cases hc
    simp only [okNs, Bool.and_eq_true] at hok
    exact okPair_right_safe x c hok.1 hx

theorem encSA_cons (c : Char) (t : Str) :
    encSA (c :: t) = escSA c ++ encSA t := by
  simp [encSA]

theorem encA_cons (c : Char) (t : Str) :
    encA (c :: t) = escA c ++ encA t := by
  simp [encA]

theorem sanitize_eq_encSA (ns : Str) : sanitizeTableName ns = encSA ns := by
  induction ns with
  | nil => rfl
  | cons c t ih =>
    show replaceChar '@' aTok (replaceChar '/' sTok (c :: t)) = _
    have hsplit : replaceChar '/' sTok (c :: t)
        = (if c = '/' then sTok else [c]) ++ replaceChar '/' sTok t := by
      simp [replaceChar]
    have hdist : replaceChar '@' aTok
        ((if c = '/' then sTok else [c]) ++ replaceChar '/' sTok t)
        = replaceChar '@' aTok (if c = '/' then sTok else [c])
          ++ replaceChar '@' aTok (replaceChar '/' sTok t) := by
      simp [replaceChar]
    have hhead : replaceChar '@' aTok (if c = '/' then sTok else [c])
        = escSA c := by
      by_cases h1 : c = '/'
      · subst h1
        simp [replaceChar, sTok, escSA]
      · by_cases h2 : c = '@'
        · subst h2
          simp [replaceChar, escSA, aTok]
        · simp [replaceChar, escSA, h1, h2]
    unfold sanitizeTableName at ih
    rw [hsplit, hdist, hhead, ih, encSA_cons]

theorem replaceFuel_nil (pat rep : Str) (f : Nat) :
    replaceFuel pat rep f [] = [] := by
  cases f with
  | zero => rfl
  | succ f' =>
    simp only [replaceFuel]
    rw [if_neg fun h => h.1 (List.prefix_nil.mp h.2)]

theorem replaceFuel_match (pat rep : Str) (f : Nat) (s : Str) (hne : pat ≠ [])
    (hp : pat <+: s) :
    replaceFuel pat rep (f + 1) s
      = rep ++ replaceFuel pat rep f (s.drop pat.length) := by
  simp only [replaceFuel]
  rw [if_pos ⟨hne, hp⟩]

theorem replaceFuel_skip (pat rep : Str) (f : Nat) (c : Char) (t : Str)
    (hn : ¬ pat <+: (c :: t)) :
    replaceFuel pat rep (f + 1) (c :: t) = c :: replaceFuel pat rep f t := by
  simp only [replaceFuel]
  rw [if_neg fun h => hn h.2]

theorem not_prefix_S (r : Str) (t : Str)
    (h : ∀ c, t.head? = some c → escLetter c = false) :
    ¬ ('S' :: r) <+: encSA t := by
  cases t with
  | nil => simp [encSA]
  | cons c' t' =>
    rw [encSA_cons]
    by_cases h1 : c' = '/'
    · subst h1
      rw [show escSA '/' = sTok from by simp [escSA]]
      simp [sTok, List.cons_prefix_cons]
    · by_cases h2 : c' = '@'
      · subst h2
        rw [show escSA '@' = aTok from by simp [escSA]]
        simp [aTok, List.cons_prefix_cons]
      · rw [show escSA c' = [c'] from by simp [escSA, h1, h2]]
        intro hp
        have h3 := (List.cons_prefix_cons.mp hp).1
        have h4 := h c' rfl
        rw [← h3] at h4
        simp [escLetter] at h4

theorem not_prefix_A (r : Str) (t : Str)
    (h : ∀ c, t.head? = some c → escLetter c = false) :
    ¬ ('A' :: r) <+: encA t := by
  cases t with
  | nil => simp [encA]
  | cons c' t' =>
    rw [encA_cons]
    by_cases h2 : c' = '@'
    · subst h2
      rw [show escA '@' = aTok from by simp [escA]]
      simp [aTok, List.cons_prefix_cons]
    · rw [show escA c' = [c'] from by simp [escA, h2]]
      intro hp
      have h3 := (List.cons_prefix_cons.mp hp).1
      have h4 := h c' rfl
      rw [← h3] at h4
      simp [escLetter] at h4

theorem not_prefix_dashS (t : Str)
    (hsafe : ∀ t2, t = '-' :: t2 →
      ∀ c2, t2.head? = some c2 → escLetter c2 = false) :
    ¬ (['-', 'S', '-', '-'] : Str) <+: encSA t := by
  cases t with
  | nil => simp [encSA]
  | cons c2 t2 =>
    rw [encSA_cons]
    by_cases hc2 : c2 = '/'
    · subst hc2
      rw [show escSA '/' = sTok from by simp [escSA]]
      simp [sTok, List.cons_prefix_cons]
    · by_cases hc3 : c2 = '@'
      · subst hc3
        rw [show escSA '@' = aTok from by simp [escSA]]
        simp [aTok, List.cons_prefix_cons]
      · rw [show escSA c2 = [c2] from by simp [escSA, hc2, hc3]]
        intro hp
        have h1 := List.cons_prefix_cons.mp hp
        have hc2d : c2 = '-' := h1.1.symm
        subst hc2d
        exact not_prefix_S ['-', '-'] t2 (hsafe t2 rfl) h1.2

theorem not_prefix_dashA (t : Str)
    (hsafe : ∀ t2, t = '-' :: t2 →
      ∀ c2, t2.head? = some c2 → escLetter c2 = false) :
    ¬ (['-', 'A', '-', '-'] : Str) <+: encA t := by
  cases t with
  | nil => simp [encA]
  | cons c2 t2 =>
    rw [encA_cons]
    by_cases hc3 : c2 = '@'
    · subst hc3
      rw [show escA '@' = aTok from by simp [escA]]
      simp [aTok, List.cons_prefix_cons]
    · rw [show escA c2 = [c2] from by simp [escA, hc3]]
      intro hp
      have h1 := List.cons_prefix_cons.mp hp
      have hc2d : c2 = '-' := h1.1.symm
      subst hc2d
      exact not_prefix_A ['-', '-'] t2 (hsafe t2 rfl) h1.2

theorem decodeS (l : Str) (hok : okNs l = true) :
    ∀ f, (encSA l).length ≤ f →
    replaceFuel sTok ['/'] f (encSA l) = encA l := by
  induction l with
  | nil =>
    intro f _
    simp [encSA, encA, replaceFuel_nil]
  | cons c t ih =>
    intro f hf
    have hokt : okNs t = true := okNs_tail c t hok
    by_cases h1 : c = '/'
    · subst h1
      rw [encSA_cons, show escSA '/' = sTok from by simp [escSA]] at hf ⊢
      cases f with
      | zero =>
        exfalso
        simp [sTok] at hf
      | succ f' =>
        rw [replaceFuel_match _ _ _ _ (by simp [sTok])
          (List.prefix_append sTok (encSA t))]
        rw [List.drop_left sTok (encSA t)]
        rw [ih hokt f' (by simp [sTok] at hf; omega)]
        rw [encA_cons, show escA '/' = ['/'] from by simp [escA]]
    · by_cases h2 : c = '@'
      · subst h2
        rw [encSA_cons, show escSA '@' = aTok from by simp [escSA]] at hf ⊢
        have hd : ∀ c2, t.head? = some c2 → escLetter c2 = false :=
          head_safe '@' t hok (by simp [riskChar])
        have hsafe2 : ∀ t2, t = '-' :: t2 →
            ∀ c2, t2.head? = some c2 → escLetter c2 = false := by
          intro t2 ht2 c2 hc2
          subst ht2
          exact head_safe '-' t2 (okNs_tail '@' _ hok) (by simp [riskChar]) c2 hc2
        simp only [aTok, List.length_append, List.length_cons,
          List.length_nil] at hf
        obtain ⟨f', rfl⟩ : ∃ f', f = f' + 5 := ⟨f - 5, by omega⟩
        show replaceFuel sTok ['/'] (f' + 5)
          ('-' :: '-' :: 'A' :: '-' :: '-' :: encSA t) = _
        rw [show f' + 5 = (f' + 4) + 1 from rfl,
          replaceFuel_skip _ _ _ _ _ (by simp [sTok, List.cons_prefix_cons])]
        rw [show f' + 4 = (f' + 3) + 1 from rfl,
          replaceFuel_skip _ _ _ _ _ (by simp [sTok, List.cons_prefix_cons])]
        rw [show f' + 3 = (f' + 2) + 1 from rfl,
          replaceFuel_skip _ _ _ _ _ (by simp [sTok, List.cons_prefix_cons])]
        rw [show f' + 2 = (f' + 1) + 1 from rfl,
          replaceFuel_skip _ _ _ _ _ ?hrefA]
        case hrefA =>
          intro hp
          simp only [sTok, List.cons_prefix_cons, true_and] at hp
          exact not_prefix_S ['-', '-'] t hd hp
        rw [replaceFuel_skip _ _ _ _ _ ?hrefB]
        case hrefB =>
          intro hp
          simp only [sTok, List.cons_prefix_cons, true_and] at hp
          exact not_prefix_dashS t hsafe2 hp
        rw [ih hokt f' (by omega)]
        rw [encA_cons, show escA '@' = aTok from by simp [escA]]
        rfl
      · rw [encSA_cons, show escSA c = [c] from by simp [escSA, h1, h2]] at hf ⊢
        cases f with
        | zero =>
          exfalso
          simp at hf
        | succ f' =>
          have hsafe2 : ∀ t2, t = '-' :: t2 →
              ∀ c2, t2.head? = some c2 → escLetter c2 = false := by
            intro t2 ht2 c2 hc2
            subst ht2
            exact head_safe '-' t2 (okNs_tail c _ hok) (by simp [riskChar]) c2 hc2
          have hns : ¬ sTok <+: (c :: encSA t) := by
            intro hp
            have hh := List.cons_prefix_cons.mp hp
            have hcd : c = '-' := hh.1.symm
            exact not_prefix_dashS t hsafe2 hh.2
          rw [show ([c] ++ encSA t : Str) = c :: encSA t from rfl]
          rw [replaceFuel_skip _ _ _ _ _ hns]
          rw [ih hokt f' (by simp at hf; omega)]
          rw [encA_cons, show escA c = [c] from by simp [escA, h2]]
          rfl

theorem decodeA (l : Str) (hok : okNs l = true) :
    ∀ f, (encA l).length ≤ f →
    replaceFuel aTok ['@'] f (encA l) = l := by
  induction l with
  | nil =>
    intro f _
    simp [encA, replaceFuel_nil]
  | cons c t ih =>
    intro f hf
    have hokt : okNs t = true := okNs_tail c t hok
    by_cases h2 : c = '@'
    · subst h2
      rw [encA_cons, show escA '@' = aTok from by simp [escA]] at hf ⊢
      cases f with
      | zero =>
        exfalso
        simp [aTok] at hf
      | succ f' =>
        rw [replaceFuel_match _ _ _ _ (by simp [aTok])
          (List.prefix_append aTok (encA t))]
        rw [List.drop_left aTok (encA t)]
        rw [ih hokt f' (by simp [aTok] at hf; omega)]
        rfl
    · rw [encA_cons, show escA c = [c] from by simp [escA, h2]] at hf ⊢
      cases f with
      | zero =>
        exfalso
        simp at hf
      | succ f' =>
        have hsafe2 : ∀ t2, t = '-' :: t2 →
            ∀ c2, t2.head? = some c2 → escLetter c2 = false := by
          intro t2 ht2 c2 hc2
          subst ht2
          exact head_safe '-' t2 (okNs_tail c _ hok) (by simp [riskChar]) c2 hc2
        have hns : ¬ aTok <+: (c :: encA t) := by
          intro hp
          have hh := List.cons_prefix_cons.mp hp
          have hcd : c = '-' := hh.1.symm
          exact not_prefix_dashA t hsafe2 hh.2
        rw [show ([c] ++ encA t : Str) = c :: encA t from rfl]
        rw [replaceFuel_skip _ _ _ _ _ hns]
        rw [ih hokt f' (by simp at hf; omega)]

end Vect

/-- C8 counterexample: the namespace `npm/@S@x/1.0` (an `S` between two `@`)
does not survive the sanitize/unsanitize round trip: the decoded string
differs, because the `@` escapes manufacture a spurious `--S--` token. -/
theorem C8_counterexample :
    Vect.unsanitizeTableName (Vect.sanitizeTableName "npm/@S@x/1.0".toList)
      ≠ "npm/@S@x/1.0".toList := by
  decide

/-- C8 (amended): `unsanitize_table_name` inverts `sanitize_table_name` on
every namespace in which no occurrence of the escape letters `S` and `A` is
immediately adjacent to `-`, `/` or `@`; without that restriction the claim
fails, because the escape sequences can collide with characters allowed in
namespaces (hyphens and uppercase letters). -/
theorem C8_sanitizeRoundtrip (ns : Str) (hok : Vect.okNs ns = true) :
    Vect.unsanitizeTableName (Vect.sanitizeTableName ns) = ns := by
  rw [Vect.sanitize_eq_encSA]
  unfold Vect.unsanitizeTableName Vect.replaceStr
  rw [Vect.decodeS ns hok _ le_rfl]
  rw [Vect.decodeA ns hok _ le_rfl]

/-- C8 witness: the round trip applied to the real scoped-package namespace
`npm/@scope/pkg/1.0.0`. -/
theorem C8_sanitizeRoundtrip_witness :
    Vect.unsanitizeTableName
      (Vect.sanitizeTableName "npm/@scope/pkg/1.0.0".toList)
      = "npm/@scope/pkg/1.0.0".toList :=
  C8_sanitizeRoundtrip "npm/@scope/pkg/1.0.0".toList (by decide)

/-!
## Chunk embedding text (src/indexer/chunk.rs)

`CodeChunk::embedding_text` joins documentation, signature and a code
preview with `"\n\n"`; the preview is the first
`code.floor_char_boundary(1000)` bytes when the code exceeds 1000 bytes.
Strings are modelled at the byte level (`List Nat`), with `utf8` the UTF-8
encoding of a list of code points and `floorCharBoundary` the Rust
`str::floor_char_boundary` (searching down from `index` within
`index.saturating_sub(3) ..= index` for a non-continuation byte).
-/

namespace Chunk

abbrev Bytes := List Nat

def csize (v : Nat) : Nat :=
  if v < 128 then 1 else if v < 2048 then 2 else if v < 65536 then 3 else 4

def encChar (v : Nat) : Bytes :=
  if v < 128 then [v]
  else if v < 2048 then [192 + v / 64, 128 + v % 64]
  else if v < 65536 then [224 + v / 4096, 128 + v / 64 % 64, 128 + v % 64]
  else [240 + v / 262144, 128 + v / 4096 % 64, 128 + v / 64 % 64, 128 + v % 64]

def utf8 (l : List Nat) : Bytes := l.flatMap encChar

def isUtf8CharBoundary (b : Nat) : Bool := decide (b < 128 ∨ 192 ≤ b)

def rposition (l : Bytes) : Option Nat :=
  (l.reverse.findIdx? isUtf8CharBoundary).map (fun j => l.length - 1 - j)

def floorCharBoundary (s : Bytes) (index : Nat) : Nat :=
  if s.length ≤ index then s.length
  else
    match rposition ((s.drop (index - 3)).take (index - (index - 3) + 1)) with
    | some j => (index - 3) + j
    | none => index - 3

structure CodeChunk where
  documentation : Option Bytes
  signature : Option Bytes
  code : Bytes

def embedding_text (ch : CodeChunk) : Bytes :=
  List.intercalate [10, 10]
    ((match ch.documentation with
      | some doc => [doc]
      | none => []) ++
     (match ch.signature with
      | some sig => [sig]
      | none => []) ++
     [if 1000 < ch.code.length then ch.code.take (floorCharBoundary ch.code 1000)
      else ch.code])

def takePrefix (budget : Nat) : List Nat → List Nat
  | [] => []
  | c :: t => if csize c ≤ budget then c :: takePrefix (budget - csize c) t else []

theorem encChar_length (v : Nat) : (encChar v).length = csize v := by
  simp only [encChar, csize]
  split_ifs <;> rfl

theorem csize_pos (v : Nat) : 1 ≤ csize v := by
  simp only [csize]
  split_ifs <;> omega

theorem csize_le_four (v : Nat) : csize v ≤ 4 := by
  simp only [csize]
  split_ifs <;> omega

theorem encChar_getD_zero (v : Nat) :
    isUtf8CharBoundary ((encChar v).getD 0 0) = true := by
  simp only [encChar]
  split_ifs with h1 h2 h3 <;>
    simp only [List.getD_cons_zero, isUtf8CharBoundary, decide_eq_true_eq] <;>
    omega

theorem encChar_getD_cont (v j : Nat) (h1 : 0 < j) (h2 : j < csize v) :
    isUtf8CharBoundary ((encChar v).getD j 0) = false := by
  have hm64 : v % 64 < 64 := Nat.mod_lt _ (by omega)
  have hm64b : v / 64 % 64 < 64 := Nat.mod_lt _ (by omega)
  have hm64c : v / 4096 % 64 < 64 := Nat.mod_lt _ (by omega)
  simp only [encChar, csize] at h2 ⊢
  split_ifs at h2 ⊢ <;> interval_cases j <;>
    simp only [List.getD_cons_succ, List.getD_cons_zero, isUtf8CharBoundary,
      decide_eq_false_iff_not, not_or, not_lt] <;>
    omega

theorem takePrefix_le (n : Nat) (l : List Nat) :
    (utf8 (takePrefix n l)).length ≤ n := by
  induction l generalizing n with
  | nil => simp [takePrefix, utf8]
  | cons c t ih =>
    simp only [takePrefix]
    split_ifs with h
    · have h2 := ih (n - csize c)
      simp only [utf8, List.flatMap_cons, List.length_append, encChar_length] at h2 ⊢
      omega
    · simp [utf8]

theorem takePrefix_spec (n : Nat) (l : List Nat) (h : n < (utf8 l).length) :
    ∃ c q, l = takePrefix n l ++ c :: q ∧
      n < (utf8 (takePrefix n l)).length + csize c := by
  induction l generalizing n with
  | nil => simp [utf8] at h
  | cons c t ih =>
    by_cases hc : csize c ≤ n
    · have h2 : n - csize c < (utf8 t).length := by
        simp only [utf8, List.flatMap_cons, List.length_append, encChar_length] at h
        simp only [utf8]
        omega
      obtain ⟨c', q', he, hm⟩ := ih (n - csize c) h2
      refine ⟨c', q', ?_, ?_⟩
      · simp only [takePrefix, if_pos hc]
        rw [List.cons_append, ← he]
      · simp only [takePrefix, if_pos hc, utf8, List.flatMap_cons,
          List.length_append, encChar_length]
        simp only [utf8] at hm
        omega
    · exact ⟨c, t, by simp [takePrefix, if_neg hc],
        by simp only [takePrefix, if_neg hc, utf8, List.flatMap_nil,
             List.length_nil]; omega⟩

theorem findIdx_first (p : Nat → Bool) (r : List Nat) :
    ∀ (j i : Nat), j < r.length →
    (∀ k, k < j → p (r.getD k 0) = false) →
    p (r.getD j 0) = true →
    r.findIdx? p i = some (i + j) := by
  induction r with
  | nil =>
    intro j i h1
    simp at h1
  | cons a t ih =>
    intro j i h1 h2 h3
    cases j with
    | zero =>
      simp only [List.getD_cons_zero] at h3
      simp [List.findIdx?_cons, h3]
    | succ j' =>
      have ha : p a = false := by
        have := h2 0 (by omega)
        simpa [List.getD_cons_zero] using this
      rw [List.findIdx?_cons]
      rw [if_neg (by simp [ha])]
      rw [show i + (j' + 1) = (i + 1) + j' from by omega]
      apply ih
      · simp at h1; omega
      · intro k hk
        have := h2 (k + 1) (by omega)
        simpa [List.getD_cons_succ] using this
      · simpa [List.getD_cons_succ] using h3

theorem rposition_eq (sl : Bytes) (j : Nat) (h1 : j < sl.length)
    (hb : isUtf8CharBoundary (sl.getD j 0) = true)
    (hc : ∀ k, j < k → k < sl.length → isUtf8CharBoundary (sl.getD k 0) = false) :
    rposition sl = some j := by
  have hgr : ∀ k (hk : k < sl.length),
      sl.reverse.getD k 0 = sl.getD (sl.length - 1 - k) 0 := by
    intro k hk
    rw [List.getD_eq_getElem _ _ (by simpa using hk)]
    rw [List.getD_eq_getElem _ _ (by omega)]
    rw [List.getElem_reverse]
  have hfind : sl.reverse.findIdx? isUtf8CharBoundary = some (sl.length - 1 - j) := by
    rw [show sl.length - 1 - j = 0 + (sl.length - 1 - j) from by omega]
    apply findIdx_first
    · simp; omega
    · intro k hk
      rw [hgr k (by omega)]
      exact hc _ (by omega) (by omega)
    · rw [hgr _ (by omega)]
      have h4 : sl.length - 1 - (sl.length - 1 - j) = j := by omega
      rw [h4]
      exact hb
  unfold rposition
  rw [hfind]
  simp
  omega

theorem slice_getD (s : Bytes) (a k : Nat) (hk : k < 4) (h2 : a + k < s.length) :
    ((s.drop a).take 4).getD k 0 = s.getD (a + k) 0 := by
  have hlen : k < ((s.drop a).take 4).length := by
    simp only [List.length_take, List.length_drop]
    omega
  rw [List.getD_eq_getElem _ _ hlen, List.getD_eq_getElem _ _ h2]
  rw [List.getElem_take, List.getElem_drop]

theorem utf8_append (a b : List Nat) : utf8 (a ++ b) = utf8 a ++ utf8 b := by
  simp [utf8, List.flatMap_append]

/-- On the encoding of a code-point list longer than 1000 bytes,
`floor_char_boundary 1000` lands exactly at the end of the longest
code-point prefix that fits in 1000 bytes. -/
theorem fcb_eq (l : List Nat) (hl : 1000 < (utf8 l).length) :
    floorCharBoundary (utf8 l) 1000 = (utf8 (takePrefix 1000 l)).length := by
  obtain ⟨c, q', hpq, hmax⟩ := takePrefix_spec 1000 l hl
  have hm_le : (utf8 (takePrefix 1000 l)).length ≤ 1000 := takePrefix_le 1000 l
  have hm_ge : 997 ≤ (utf8 (takePrefix 1000 l)).length := by
    have := csize_le_four c
    omega
  have hsplit : utf8 l = utf8 (takePrefix 1000 l) ++ (encChar c ++ utf8 q') := by
    conv_lhs => rw [hpq]
    rw [utf8_append]
    simp [utf8, List.flatMap_cons]
  have hbdy : isUtf8CharBoundary
      ((utf8 l).getD ((utf8 (takePrefix 1000 l)).length) 0) = true := by
    rw [hsplit, List.getD_append_right _ _ _ _ le_rfl, Nat.sub_self]
    rw [List.getD_append _ _ _ _ (by rw [encChar_length]; have := csize_pos c; omega)]
    exact encChar_getD_zero c
  have hcont : ∀ k, (utf8 (takePrefix 1000 l)).length < k → k ≤ 1000 →
      isUtf8CharBoundary ((utf8 l).getD k 0) = false := by
    intro k hk1 hk2
    rw [hsplit, List.getD_append_right _ _ _ _ (by omega)]
    rw [List.getD_append _ _ _ _ (by rw [encChar_length]; omega)]
    exact encChar_getD_cont c _ (by omega) (by omega)
  have hrp : rposition (((utf8 l).drop 997).take 4)
      = some ((utf8 (takePrefix 1000 l)).length - 997) := by
    apply rposition_eq
    · simp only [List.length_take, List.length_drop]
      omega
    · rw [slice_getD _ _ _ (by omega) (by omega)]
      rw [show 997 + ((utf8 (takePrefix 1000 l)).length - 997)
            = (utf8 (takePrefix 1000 l)).length from by omega]
      exact hbdy
    · intro k hk1 hk2
      simp only [List.length_take, List.length_drop] at hk2
      rw [slice_getD _ _ _ (by omega) (by omega)]
      exact hcont _ (by omega) (by omega)
  unfold floorCharBoundary
  rw [if_neg (by omega)]
  rw [show (1000 - 3 : Nat) = 997 from rfl]
  rw [show (1000 - 997 + 1 : Nat) = 4 from rfl]
  rw [hrp]
  show 997 + ((utf8 (takePrefix 1000 l)).length - 997) = (utf8 (takePrefix 1000 l)).length
  omega

end Chunk

/-- C6: for every chunk whose code is the UTF-8 encoding of a code-point
list `l`, the embedding text is the `"\n\n"`-join of the optional
documentation, the optional signature, and the encoding of a code-point
prefix `p` of the code; that preview is at most 1000 bytes, equals the
whole code when the code fits in 1000 bytes, and is maximal otherwise
(appending the next code point would exceed 1000 bytes) — so the
truncation never splits a UTF-8 code point. -/
theorem C6_embeddingText (doc sig : Option Chunk.Bytes) (l : List Nat) :
    ∃ p q, l = p ++ q ∧
      Chunk.embedding_text ⟨doc, sig, Chunk.utf8 l⟩
        = List.intercalate [10, 10] (doc.toList ++ sig.toList ++ [Chunk.utf8 p]) ∧
      (Chunk.utf8 p).length ≤ 1000 ∧
      ((Chunk.utf8 l).length ≤ 1000 → q = []) ∧
      (∀ c q', q = c :: q' → 1000 < (Chunk.utf8 (p ++ [c])).length) := by
  by_cases hl : 1000 < (Chunk.utf8 l).length
  · obtain ⟨c, q', hpq, hmax⟩ := Chunk.takePrefix_spec 1000 l hl
    refine ⟨Chunk.takePrefix 1000 l, c :: q', hpq, ?_, Chunk.takePrefix_le 1000 l,
      fun h => absurd hl (by omega), ?_⟩
    · simp only [Chunk.embedding_text, if_pos hl, Chunk.fcb_eq l hl]
      have hsplit : Chunk.utf8 l
          = Chunk.utf8 (Chunk.takePrefix 1000 l) ++ Chunk.utf8 (c :: q') := by
        conv_lhs => rw [hpq]
        exact Chunk.utf8_append _ _
      rw [hsplit, List.take_left]
      cases doc <;> cases sig <;> rfl
    · intro c0 q0 he
      injection he with he1 he2
      subst he1
      rw [Chunk.utf8_append]
      simp only [List.length_append, Chunk.utf8, List.flatMap_cons, List.flatMap_nil,
        List.append_nil, Chunk.encChar_length]
      simp only [Chunk.utf8] at hmax
      omega
  · refine ⟨l, [], by simp, ?_, by omega, fun _ => rfl, fun c q' h => by cases h⟩
    simp only [Chunk.embedding_text, if_neg hl]
    cases doc <;> cases sig <;> rfl
